import Mathlib

/-!
# SimpleElastix: image facade and process wrapper

A shallow embedding of `Code/Common/src/sitkPimpleImageBase.hxx` (the typed image
handle `PimpleImage<TImageType>`) and of `Code/Common/src/sitkProcessObject.cxx`
(the process wrapper `ProcessObject`), followed by theorems about them.

Conventions of the embedding.

* A template parameter becomes an explicit argument (`T : ImageType`).
* A member function that may change its object returns an `Outcome`: the object as the
  call leaves it and the exception, if one is thrown. A `const` member that only
  reads returns `Except Exception _`.
* `sitkExceptionMacro` becomes a value of `Exception`; one constructor per throw site.
* A value of a `w`-bit arithmetic type is its `w`-bit object representation, so that
  floating-point values are carried around bit for bit and never computed with.
* The native ITK objects (`itk::Image`, `itk::ProcessObject`) are outside the
  repository; they are modelled at their interface, as documented at each definition.
* Where the sharing of a native image matters, the images live in an `ImageMemory` and
  an `ImageHandle` holds the address of one; elsewhere an object is carried together
  with the native object that it points to.
-/

namespace SimpleITK

/-! ## Values and pixel identifiers -/

/-- Object representation of a value of a `w`-bit arithmetic type. -/
abbrev Bits (w : Nat) : Type := Fin (2 ^ w)

instance instInhabitedBits (w : Nat) : Inhabited (Bits w) := ⟨⟨0, Nat.two_pow_pos w⟩⟩

/-- The C type `double`. -/
abbrev Double : Type := Bits 64

/-- The C type `float`. -/
abbrev Float32 : Type := Bits 32

/-- Modelled from the spec: the scalar element types of the pixel type registry
(`sitkPixelIDTypeLists.h`, outside the two files embedded here): 8/16/32-bit signed and
unsigned integers, float, double. -/
inductive ComponentType where
  | int8
  | uint8
  | int16
  | uint16
  | int32
  | uint32
  | float
  | double
  deriving DecidableEq, Repr

/-- Width in bits of a scalar element type. -/
def ComponentType.bits : ComponentType → Nat
  | .int8 => 8
  | .uint8 => 8
  | .int16 => 16
  | .uint16 => 16
  | .int32 => 32
  | .uint32 => 32
  | .float => 32
  | .double => 64

/-- The values of a scalar element type. -/
abbrev ComponentType.Value (c : ComponentType) : Type := Bits c.bits

/-- Modelled from the spec: the pixel identifier types `BasicPixelID<T>`,
`VectorPixelID<T>` and `LabelPixelID<T>` of `sitkPixelIDTokens.h` (scalar, vector-of-element
and label-map kinds of tag). -/
inductive PixelID where
  | basic (c : ComponentType)
  | vector (c : ComponentType)
  | label (c : ComponentType)
  deriving DecidableEq, Repr

/-- Modelled from the spec: the trait `IsLabel<TPixelID>::Value`. -/
def IsLabel : PixelID → Bool
  | .label _ => true
  | _ => false

/-- Modelled from the spec: the trait `IsVector<TPixelID>::Value`. -/
def IsVector : PixelID → Bool
  | .vector _ => true
  | _ => false

/-- The type `ImageType::PixelType` of the native image that carries a pixel identifier:
the element itself for scalar and label images, a variable length vector of elements
for vector images. -/
def PixelType : PixelID → Type
  | .basic c => c.Value
  | .vector c => List c.Value
  | .label c => c.Value

instance instInhabitedPixelType : (P : PixelID) → Inhabited (PixelType P)
  | .basic c => instInhabitedBits c.bits
  | .vector _ => ⟨([] : List _)⟩
  | .label c => instInhabitedBits c.bits

/-- The template argument `TImageType`: what the facade uses of it is
`ImageType::ImageDimension` and `ImageTypeToPixelID<ImageType>::PixelIDType`. -/
structure ImageType where
  ImageDimension : Nat
  PixelIDType : PixelID
  deriving DecidableEq, Repr

/-! ## Exceptions -/

/-- The exceptions of the two source files, one constructor per `sitkExceptionMacro`
site (they all throw the same C++ class and differ by message), with the values that
are streamed into the message as arguments. -/
inductive Exception where
  /-- The message "unable to initialize an image with NULL". -/
  | nullImage
  /-- The message "This method is not implemented yet". -/
  | notImplementedYet
  /-- The message "Image::SetOrigin -> vector dimension mismatch". -/
  | setOriginDimensionMismatch
  /-- The message "Image::SetSpacing -> vector dimension mismatch". -/
  | setSpacingDimensionMismatch
  /-- The message "vector dimension mismatch". -/
  | vectorDimensionMismatch
  /-- The message "This method is not supported for this vector images currently.". -/
  | notSupportedForVectorImages
  /-- The message "The image is of type: A but the GetPixel access method requires type: R!". -/
  | pixelTypeMismatch (imageType : PixelID) (requiredType : PixelID)
  /-- The message "This method is not supported for this image type.". -/
  | notSupportedForImageType
  /-- The message "Image index size mismatch". -/
  | indexSizeMismatch
  /-- The message "LogicError: Unexpected event case!". -/
  | unexpectedEventCase
  /-- The message "Commands already registered to another process object!". -/
  | commandsAlreadyRegistered
  /-- The message "No active process for NAME!". -/
  | noActiveProcess (name : String)
  /-- An exception raised by the native backend or by an overriding class. -/
  | native (what : String)
  deriving DecidableEq, Repr

/-- The message of an exception. The function `GetPixelIDValueAsString` is defined
outside the two files embedded here and is taken as the argument `name`. -/
def Exception.what (name : PixelID → String) : Exception → String
  | .nullImage => "unable to initialize an image with NULL"
  | .notImplementedYet => "This method is not implemented yet"
  | .setOriginDimensionMismatch => "Image::SetOrigin -> vector dimension mismatch"
  | .setSpacingDimensionMismatch => "Image::SetSpacing -> vector dimension mismatch"
  | .vectorDimensionMismatch => "vector dimension mismatch"
  | .notSupportedForVectorImages =>
      "This method is not supported for this vector images currently."
  | .pixelTypeMismatch imageType requiredType =>
      "The image is of type: " ++ name imageType
        ++ " but the GetPixel access method requires type: " ++ name requiredType ++ "!"
  | .notSupportedForImageType => "This method is not supported for this image type."
  | .indexSizeMismatch => "Image index size mismatch"
  | .unexpectedEventCase => "LogicError: Unexpected event case!"
  | .commandsAlreadyRegistered => "Commands already registered to another process object!"
  | .noActiveProcess n => "No active process for \"" ++ n ++ "\"!"
  | .native w => w

/-- What a member function that may change its object leaves behind: the object, and
the exception when it throws. -/
structure Outcome (σ : Type) where
  self : σ
  thrown : Option Exception

/-! ## The native image -/

/-- A fixed-size array `itk::FixedArray<α, n>` (points, spacings, indices, sizes). -/
abbrev FixedArray (α : Type) (n : Nat) : Type := { l : List α // l.length = n }

/-- Offset into the pixel buffer of a native index `idx`, for a buffered region that
starts at `start` and has extent `size` (first axis fastest), as
`itk::ImageBase::ComputeOffset` computes it. -/
def computeOffset : List Int → List Int → List Nat → Int
  | i :: idx, s :: start, n :: size => (i - s) + (n : Int) * computeOffset idx start size
  | _, _, _ => 0

/-- A native index lies inside the region that starts at `start` and has extent `size`. -/
def insideRegion : List Int → List Int → List Nat → Prop
  | i :: idx, s :: start, n :: size => s ≤ i ∧ i < s + (n : Int) ∧ insideRegion idx start size
  | [], [], [] => True
  | _, _, _ => False

instance instDecidableInsideRegion :
    (idx start : List Int) → (size : List Nat) → Decidable (insideRegion idx start size)
  | [], [], [] => isTrue trivial
  | i :: idx, s :: start, n :: size =>
      have := instDecidableInsideRegion idx start size
      if h : s ≤ i ∧ i < s + (n : Int) ∧ insideRegion idx start size then isTrue h
      else isFalse h
  | [], [], _ :: _ => isFalse (fun h => h)
  | [], _ :: _, _ => isFalse (fun h => h)
  | _ :: _, [], _ => isFalse (fun h => h)
  | _ :: _, _ :: _, [] => isFalse (fun h => h)

/-- The native image `itk::Image<V, D>` at its interface: origin, spacing, the region
(start index and size; the largest possible region and the buffered region coincide)
and the pixel buffer, which holds one pixel per index of the region. -/
structure ItkImage (V : Type) (D : Nat) where
  m_Origin : FixedArray Double D
  m_Spacing : FixedArray Double D
  m_Index : FixedArray Int D
  m_Size : FixedArray Nat D
  m_Buffer : List V
  buffer_length : m_Buffer.length = m_Size.val.prod

namespace ItkImage

variable {V : Type} {D : Nat}

/-- Native `GetOrigin`. -/
def GetOrigin (img : ItkImage V D) : FixedArray Double D := img.m_Origin

/-- Native `SetOrigin`: stores the point as given. -/
def SetOrigin (img : ItkImage V D) (origin : FixedArray Double D) : ItkImage V D :=
  { img with m_Origin := origin }

/-- Native `GetSpacing`. -/
def GetSpacing (img : ItkImage V D) : FixedArray Double D := img.m_Spacing

/-- Native `SetSpacing`: stores the spacing as given; what the native image derives
from the spacing, and its checks on the values, are not modelled. -/
def SetSpacing (img : ItkImage V D) (spacing : FixedArray Double D) : ItkImage V D :=
  { img with m_Spacing := spacing }

/-- Native `GetPixel`: reads the buffer at the offset of the index, without a range
check. An access outside the buffer is undefined in C++; here it yields the zero pixel. -/
def GetPixel [Inhabited V] (img : ItkImage V D) (index : FixedArray Int D) : V :=
  match computeOffset index.val img.m_Index.val img.m_Size.val with
  | Int.ofNat k => img.m_Buffer.getD k default
  | Int.negSucc _ => default

/-- Native `SetPixel`: writes the buffer at the offset of the index, without a range
check. An access outside the buffer is undefined in C++; here it writes nothing. -/
def SetPixel (img : ItkImage V D) (index : FixedArray Int D) (v : V) : ItkImage V D :=
  match computeOffset index.val img.m_Index.val img.m_Size.val with
  | Int.ofNat k =>
      { img with
        m_Buffer := img.m_Buffer.set k v
        buffer_length := by rw [List.length_set]; exact img.buffer_length }
  | Int.negSucc _ => img

end ItkImage

/-! ## The typed image handle `PimpleImage<TImageType>` -/

/-- The class `PimpleImage<TImageType>`: the member `m_Image`, and the static assertion
of the constructor that the dimension is 2 or 3. -/
structure PimpleImage (T : ImageType) where
  m_Image : ItkImage (PixelType T.PixelIDType) T.ImageDimension
  dimension_ok : T.ImageDimension = 3 ∨ T.ImageDimension = 2

namespace PimpleImage

variable {T : ImageType}

/-- Member `GetPixelIDValue`, as the pixel identifier itself. -/
def GetPixelIDValue (_self : PimpleImage T) : PixelID := T.PixelIDType

/-- Member `GetDimension`. -/
def GetDimension (_self : PimpleImage T) : Nat := T.ImageDimension

/-- Member `GetOrigin`: a vector of `ImageDimension` entries, filled from the native
origin. -/
def GetOrigin (self : PimpleImage T) : List Double :=
  self.m_Image.GetOrigin.val

/-- Member `SetOrigin`. -/
def SetOrigin (self : PimpleImage T) (orgn : List Double) : Outcome (PimpleImage T) :=
  if h : orgn.length ≠ T.ImageDimension then
    ⟨self, some .setOriginDimensionMismatch⟩
  else
    ⟨{ self with m_Image := self.m_Image.SetOrigin ⟨orgn, not_not.mp h⟩ }, none⟩

/-- Member `GetSpacing`: a vector of `ImageDimension` entries, filled from the native
spacing. -/
def GetSpacing (self : PimpleImage T) : List Double :=
  self.m_Image.GetSpacing.val

/-- Member `SetSpacing`. -/
def SetSpacing (self : PimpleImage T) (spc : List Double) : Outcome (PimpleImage T) :=
  if h : spc.length ≠ T.ImageDimension then
    ⟨self, some .setSpacingDimensionMismatch⟩
  else
    ⟨{ self with m_Image := self.m_Image.SetSpacing ⟨spc, not_not.mp h⟩ }, none⟩

/-- Static member `ConvertSTLToIndex`: the entries `idx[0]`, ..., `idx[ImageDimension-1]`
of a vector of 32-bit unsigned integers, as a native index. -/
def ConvertSTLToIndex (T : ImageType) (idx : List Nat) :
    Except Exception (FixedArray Int T.ImageDimension) :=
  if idx.length < T.ImageDimension then
    .error .indexSizeMismatch
  else
    .ok ⟨(List.range T.ImageDimension).map (fun i => ((idx.getD i 0 : Nat) : Int)), by simp⟩

/-- Member template `InternalGetPixel<TPixelIDType>`, whose four overloads are selected
by the conditions of their `EnableIf`/`DisableIf`:
the requested identifier is the one of the image and is not a vector identifier
(label or not: both overloads read the pixel); it is the one of the image and a vector
identifier (throws); it is not the one of the image (throws). -/
def InternalGetPixel (TPixelIDType : PixelID) (self : PimpleImage T) (idx : List Nat) :
    Except Exception (PixelType TPixelIDType) :=
  if h : TPixelIDType = T.PixelIDType then
    if IsVector TPixelIDType then
      .error .notSupportedForVectorImages
    else
      match ConvertSTLToIndex T idx with
      | .error e => .error e
      | .ok index => .ok (h ▸ self.m_Image.GetPixel index)
  else
    .error (.pixelTypeMismatch self.GetPixelIDValue TPixelIDType)

/-- Member template `InternalSetPixel<TPixelType>`, whose two overloads are selected by
whether `BasicPixelID<TPixelType>` is the pixel identifier of the image. -/
def InternalSetPixel (TPixelType : ComponentType) (self : PimpleImage T) (idx : List Nat)
    (v : TPixelType.Value) : Outcome (PimpleImage T) :=
  if h : PixelID.basic TPixelType = T.PixelIDType then
    match ConvertSTLToIndex T idx with
    | .error e => ⟨self, some e⟩
    | .ok index =>
        ⟨{ self with
            m_Image := self.m_Image.SetPixel index (h ▸ (v : PixelType (.basic TPixelType))) },
          none⟩
  else
    ⟨self, some .notSupportedForImageType⟩

/-- Member `GetPixelAsUInt8`. -/
def GetPixelAsUInt8 (self : PimpleImage T) (idx : List Nat) : Except Exception (Bits 8) :=
  self.InternalGetPixel (.basic .uint8) idx

/-- Member `GetPixelAsInt16`. -/
def GetPixelAsInt16 (self : PimpleImage T) (idx : List Nat) : Except Exception (Bits 16) :=
  self.InternalGetPixel (.basic .int16) idx

/-- Member `GetPixelAsUInt16`. -/
def GetPixelAsUInt16 (self : PimpleImage T) (idx : List Nat) : Except Exception (Bits 16) :=
  self.InternalGetPixel (.basic .uint16) idx

/-- Member `GetPixelAsInt32`. -/
def GetPixelAsInt32 (self : PimpleImage T) (idx : List Nat) : Except Exception (Bits 32) :=
  self.InternalGetPixel (.basic .int32) idx

/-- Member `GetPixelAsUInt32`. -/
def GetPixelAsUInt32 (self : PimpleImage T) (idx : List Nat) : Except Exception (Bits 32) :=
  self.InternalGetPixel (.basic .uint32) idx

/-- Member `GetPixelAsFloat`. -/
def GetPixelAsFloat (self : PimpleImage T) (idx : List Nat) : Except Exception Float32 :=
  self.InternalGetPixel (.basic .float) idx

/-- Member `GetPixelAsDouble`. -/
def GetPixelAsDouble (self : PimpleImage T) (idx : List Nat) : Except Exception Double :=
  self.InternalGetPixel (.basic .double) idx

/-- Member `SetPixelAsUInt8`. -/
def SetPixelAsUInt8 (self : PimpleImage T) (idx : List Nat) (v : Bits 8) :
    Outcome (PimpleImage T) :=
  self.InternalSetPixel .uint8 idx v

/-- Member `SetPixelAsInt16`. -/
def SetPixelAsInt16 (self : PimpleImage T) (idx : List Nat) (v : Bits 16) :
    Outcome (PimpleImage T) :=
  self.InternalSetPixel .int16 idx v

/-- Member `SetPixelAsUInt16`. -/
def SetPixelAsUInt16 (self : PimpleImage T) (idx : List Nat) (v : Bits 16) :
    Outcome (PimpleImage T) :=
  self.InternalSetPixel .uint16 idx v

/-- Member `SetPixelAsInt32`. -/
def SetPixelAsInt32 (self : PimpleImage T) (idx : List Nat) (v : Bits 32) :
    Outcome (PimpleImage T) :=
  self.InternalSetPixel .int32 idx v

/-- Member `SetPixelAsUInt32`. -/
def SetPixelAsUInt32 (self : PimpleImage T) (idx : List Nat) (v : Bits 32) :
    Outcome (PimpleImage T) :=
  self.InternalSetPixel .uint32 idx v

/-- Member `SetPixelAsFloat`. -/
def SetPixelAsFloat (self : PimpleImage T) (idx : List Nat) (v : Float32) :
    Outcome (PimpleImage T) :=
  self.InternalSetPixel .float idx v

/-- Member `SetPixelAsDouble`. -/
def SetPixelAsDouble (self : PimpleImage T) (idx : List Nat) (v : Double) :
    Outcome (PimpleImage T) :=
  self.InternalSetPixel .double idx v

end PimpleImage

/-- The seven element types for which the handle has a `GetPixelAs...` and a
`SetPixelAs...` member. -/
inductive Accessor where
  | UInt8
  | Int16
  | UInt16
  | Int32
  | UInt32
  | Float
  | Double
  deriving DecidableEq, Repr

/-- The element type that an accessor declares. -/
def Accessor.component : Accessor → ComponentType
  | .UInt8 => .uint8
  | .Int16 => .int16
  | .UInt16 => .uint16
  | .Int32 => .int32
  | .UInt32 => .uint32
  | .Float => .float
  | .Double => .double

/-- The tag that an accessor declares: `BasicPixelID` of its element type. -/
def Accessor.tag (a : Accessor) : PixelID := .basic a.component

/-- The family `getPixelAs<T>` of the seven `GetPixelAs...` members. -/
def getPixelAs {T : ImageType} (a : Accessor) (self : PimpleImage T) (idx : List Nat) :
    Except Exception a.component.Value :=
  match a with
  | .UInt8 => self.GetPixelAsUInt8 idx
  | .Int16 => self.GetPixelAsInt16 idx
  | .UInt16 => self.GetPixelAsUInt16 idx
  | .Int32 => self.GetPixelAsInt32 idx
  | .UInt32 => self.GetPixelAsUInt32 idx
  | .Float => self.GetPixelAsFloat idx
  | .Double => self.GetPixelAsDouble idx

/-- The family `setPixelAs<T>` of the seven `SetPixelAs...` members. -/
def setPixelAs {T : ImageType} (a : Accessor) (self : PimpleImage T) (idx : List Nat)
    (v : a.component.Value) : Outcome (PimpleImage T) :=
  match a with
  | .UInt8 => self.SetPixelAsUInt8 idx v
  | .Int16 => self.SetPixelAsInt16 idx v
  | .UInt16 => self.SetPixelAsUInt16 idx v
  | .Int32 => self.SetPixelAsInt32 idx v
  | .UInt32 => self.SetPixelAsUInt32 idx v
  | .Float => self.SetPixelAsFloat idx v
  | .Double => self.SetPixelAsDouble idx v

/-- The index vector, cut to the native index, lies inside the region of the image. -/
def inRange {T : ImageType} (self : PimpleImage T) (idx : List Nat) : Prop :=
  insideRegion ((idx.take T.ImageDimension).map (fun (n : Nat) => (n : Int)))
    self.m_Image.m_Index.val self.m_Image.m_Size.val

instance instDecidableInRange {T : ImageType} (self : PimpleImage T) (idx : List Nat) :
    Decidable (inRange self idx) :=
  instDecidableInsideRegion _ _ _

/-! ## The process wrapper: events, commands and the native operation -/

/-- Modelled from the spec: the enumeration `EventEnum` of `sitkEvent.h`, with its
eight registered event kinds; `unregistered value` stands for any other value of the
enumeration type. -/
inductive EventEnum where
  | sitkAnyEvent
  | sitkAbortEvent
  | sitkDeleteEvent
  | sitkEndEvent
  | sitkIterationEvent
  | sitkProgressEvent
  | sitkStartEvent
  | sitkUserEvent
  | unregistered (value : Nat)
  deriving DecidableEq, Repr

/-- The native event objects `eventAnyEvent`, ..., `eventUserEvent`. -/
inductive ItkEventObject where
  | AnyEvent
  | AbortEvent
  | DeleteEvent
  | EndEvent
  | IterationEvent
  | ProgressEvent
  | StartEvent
  | UserEvent
  deriving DecidableEq, Repr

/-- Function `GetITKEventObject`. -/
def GetITKEventObject : EventEnum → Except Exception ItkEventObject
  | .sitkAnyEvent => .ok .AnyEvent
  | .sitkAbortEvent => .ok .AbortEvent
  | .sitkDeleteEvent => .ok .DeleteEvent
  | .sitkEndEvent => .ok .EndEvent
  | .sitkIterationEvent => .ok .IterationEvent
  | .sitkProgressEvent => .ok .ProgressEvent
  | .sitkStartEvent => .ok .StartEvent
  | .sitkUserEvent => .ok .UserEvent
  | .unregistered _ => .error .unexpectedEventCase

/-- A callback object `itk::simple::Command`, by its address (its identity). -/
abbrev CommandPtr : Type := Nat

/-- The sentinel `std::numeric_limits<unsigned long>::max()`. -/
def unsignedLongMax : Nat := 2 ^ 64 - 1

/-- Modelled from the spec: the association record `EventCommand` of
`sitkProcessObject.h` (event kind, callback reference, subscription handle or the
sentinel). -/
structure EventCommand where
  m_Event : EventEnum
  m_Command : CommandPtr
  m_ITKTag : Nat
  deriving DecidableEq, Repr

namespace EventCommand

/-- Modelled from the spec: the constructor `EventCommand(event, &cmd)`; a new
association holds the sentinel. -/
def create (e : EventEnum) (c : CommandPtr) : EventCommand := ⟨e, c, unsignedLongMax⟩

/-- Modelled from the spec: `operator==` of `EventCommand`, identity of the callback
("make a unique list of the Commands"). -/
def eq (a b : EventCommand) : Bool := a.m_Command == b.m_Command

/-- Modelled from the spec: `operator<` of `EventCommand`, order of the callback
addresses. -/
def lt (a b : EventCommand) : Bool := decide (a.m_Command < b.m_Command)

end EventCommand

/-- A native command attached to the native operation: the adaptor
`SimpleAdaptorCommand` bridging to a callback `m_That`, or the member command that
calls `OnActiveProcessDelete` of the wrapper. -/
inductive ItkCommand where
  | SimpleAdaptorCommand (m_That : CommandPtr)
  | OnActiveProcessDelete
  deriving DecidableEq, Repr

/-- An observer held by a native object: its tag, its event and its command. -/
structure Observer where
  m_Tag : Nat
  m_Event : ItkEventObject
  m_Command : ItkCommand
  deriving DecidableEq, Repr

/-- The native operation `itk::ProcessObject` at its interface: thread count, progress,
abort flag, the observers and the tag `m_Count` that the next observer gets. -/
structure ItkProcessObject where
  m_NumberOfThreads : Nat
  m_Progress : Float32
  m_AbortGenerateData : Bool
  m_Observers : List Observer
  m_Count : Nat
  deriving DecidableEq, Repr

namespace ItkProcessObject

/-- Native `SetNumberOfThreads`: stores the count as given (a native clamping of the
count to an admissible range is not modelled). -/
def SetNumberOfThreads (p : ItkProcessObject) (n : Nat) : ItkProcessObject :=
  { p with m_NumberOfThreads := n }

/-- Native `GetProgress`. -/
def GetProgress (p : ItkProcessObject) : Float32 := p.m_Progress

/-- Native `AbortGenerateDataOn`. -/
def AbortGenerateDataOn (p : ItkProcessObject) : ItkProcessObject :=
  { p with m_AbortGenerateData := true }

/-- Native `AddObserver`: appends an observer with the tag `m_Count`, advances
`m_Count` (an `unsigned long`) and returns the tag. -/
def AddObserver (p : ItkProcessObject) (e : ItkEventObject) (c : ItkCommand) :
    Nat × ItkProcessObject :=
  (p.m_Count,
    { p with
      m_Observers := p.m_Observers ++ [⟨p.m_Count, e, c⟩]
      m_Count := (p.m_Count + 1) % 2 ^ 64 })

/-- Native `RemoveObserver`: drops the observers with the tag. -/
def RemoveObserver (p : ItkProcessObject) (tag : Nat) : ItkProcessObject :=
  { p with m_Observers := p.m_Observers.filter (fun o => o.m_Tag != tag) }

end ItkProcessObject

/-- The virtual member `PreUpdateAddObserver(p, e, c)` as a class may override it:
it may throw or return a tag, and leaves the native operation in some state. -/
abbrev AddObserverMethod : Type :=
  ItkProcessObject → ItkEventObject → ItkCommand → Except Exception Nat × ItkProcessObject

/-- The class `ProcessObject`: its data members. The active native operation, which
the class holds by pointer, is carried by value. -/
structure ProcessObject where
  m_Debug : Bool
  m_NumberOfThreads : Nat
  m_ActiveProcess : Option ItkProcessObject
  m_ProgressMeasurement : Float32
  m_Commands : List EventCommand
  deriving DecidableEq, Repr

/-- What `PreUpdate(p)` leaves behind: the object, the native operation `p`, and the
exception when it throws. -/
structure PreUpdateOutcome where
  self : ProcessObject
  p : ItkProcessObject
  thrown : Option Exception

/-- The member `std::list::unique` after a first element `prev` that is kept: an
element equal to the last kept one is dropped. -/
def uniqueAfter (prev : EventCommand) : List EventCommand → List EventCommand
  | [] => []
  | i :: rest =>
      if EventCommand.eq prev i then uniqueAfter prev rest else i :: uniqueAfter i rest

/-- The member `std::list::unique`: of each run of consecutive equal elements the
first one is kept. -/
def unique : List EventCommand → List EventCommand
  | [] => []
  | i :: rest => i :: uniqueAfter i rest

namespace ProcessObject

/-- The constructor, from the two global defaults it reads. -/
def create (globalDefaultDebug : Bool) (globalDefaultNumberOfThreads : Nat) : ProcessObject :=
  { m_Debug := globalDefaultDebug
    m_NumberOfThreads := globalDefaultNumberOfThreads
    m_ActiveProcess := none
    m_ProgressMeasurement := 0
    m_Commands := [] }

/-- Member `GetDebug`. -/
def GetDebug (self : ProcessObject) : Bool := self.m_Debug

/-- Member `SetNumberOfThreads`. -/
def SetNumberOfThreads (self : ProcessObject) (n : Nat) : ProcessObject :=
  { self with m_NumberOfThreads := n }

/-- Member `GetNumberOfThreads`. -/
def GetNumberOfThreads (self : ProcessObject) : Nat := self.m_NumberOfThreads

/-- Member `PreUpdateAddObserver` of the base class. -/
def PreUpdateAddObserver : AddObserverMethod :=
  fun p e c => (.ok (p.AddObserver e c).1, (p.AddObserver e c).2)

/-- Member `AddCommand` (its return value is always 0). The call
`cmd.AddProcessObject(this)` acts on the callback object only. The name given to the
adaptor is left out. -/
def AddCommand (addObserver : AddObserverMethod) (self : ProcessObject) (event : EventEnum)
    (cmd : CommandPtr) : Outcome ProcessObject :=
  let pushed := { self with m_Commands := self.m_Commands ++ [EventCommand.create event cmd] }
  match self.m_ActiveProcess with
  | none => ⟨pushed, none⟩
  | some p =>
      match GetITKEventObject event with
      | .error e => ⟨pushed, some e⟩
      | .ok itkEvent =>
          match addObserver p itkEvent (.SimpleAdaptorCommand cmd) with
          | (.error e, p1) => ⟨{ pushed with m_ActiveProcess := some p1 }, some e⟩
          | (.ok tag, p1) =>
              ⟨{ self with
                  m_ActiveProcess := some p1
                  m_Commands :=
                    self.m_Commands ++ [{ EventCommand.create event cmd with m_ITKTag := tag }] },
                none⟩

/-- Member `RemoveAllCommands`: the object, and the callbacks on which
`RemoveProcessObject(this)` is called, in the order of the calls. -/
def RemoveAllCommands (self : ProcessObject) : ProcessObject × List CommandPtr :=
  let oldCommands := self.m_Commands
  let sorted := oldCommands.mergeSort (fun a b => !EventCommand.lt b a)
  ({ self with m_Commands := [] }, (unique sorted).map (fun i => i.m_Command))

/-- Member `HasCommand`. -/
def HasCommand (self : ProcessObject) (event : EventEnum) : Bool :=
  self.m_Commands.any (fun i => i.m_Event == event)

/-- Member `GetProgress`. -/
def GetProgress (self : ProcessObject) : Float32 :=
  match self.m_ActiveProcess with
  | some p => p.GetProgress
  | none => self.m_ProgressMeasurement

/-- Member `Abort`. -/
def Abort (self : ProcessObject) : ProcessObject :=
  match self.m_ActiveProcess with
  | some p => { self with m_ActiveProcess := some p.AbortGenerateDataOn }
  | none => self

/-- The loop of `PreUpdate` that registers the commands with the native operation `p`:
the associations as the loop leaves them, the native operation, and the exception when
a step throws. -/
def registerCommands (addObserver : AddObserverMethod) :
    ItkProcessObject → List EventCommand → List EventCommand × ItkProcessObject × Option Exception
  | p, [] => ([], p, none)
  | p, i :: rest =>
      if i.m_ITKTag ≠ unsignedLongMax then
        (i :: rest, p, some .commandsAlreadyRegistered)
      else
        match GetITKEventObject i.m_Event with
        | .error e => (i :: rest, p, some e)
        | .ok itkEvent =>
            match addObserver p itkEvent (.SimpleAdaptorCommand i.m_Command) with
            | (.error e, p1) => (i :: rest, p1, some e)
            | (.ok tag, p1) =>
                let r := registerCommands addObserver p1 rest
                ({ i with m_ITKTag := tag } :: r.1, r.2.1, r.2.2)

/-- Member `PreUpdate(p)`. The name given to each adaptor and the debug print are
left out. -/
def PreUpdate (addObserver : AddObserverMethod) (self : ProcessObject) (p : ItkProcessObject) :
    PreUpdateOutcome :=
  let p1 := p.SetNumberOfThreads self.GetNumberOfThreads
  let r := registerCommands addObserver p1 self.m_Commands
  match r.2.2 with
  | some e =>
      ⟨{ self with m_ActiveProcess := none, m_Commands := r.1 }, r.2.1, some e⟩
  | none =>
      let p2 := (r.2.1.AddObserver .DeleteEvent .OnActiveProcessDelete).2
      ⟨{ self with m_ActiveProcess := some p2, m_Commands := r.1 }, p2, none⟩

/-- Member `GetActiveProcess`; `name` is what the virtual `GetName` returns. -/
def GetActiveProcess (self : ProcessObject) (name : String) : Except Exception ItkProcessObject :=
  match self.m_ActiveProcess with
  | some p => .ok p
  | none => .error (.noActiveProcess name)

/-- Member `OnActiveProcessDelete`. -/
def OnActiveProcessDelete (self : ProcessObject) : ProcessObject :=
  { self with
    m_ProgressMeasurement :=
      match self.m_ActiveProcess with
      | some p => p.GetProgress
      | none => 0
    m_Commands := self.m_Commands.map (fun i => { i with m_ITKTag := unsignedLongMax })
    m_ActiveProcess := none }

/-- The loop of `onCommandDelete`: the active native operation and the associations
that are left. -/
def onCommandDeleteLoop (cmd : CommandPtr) :
    Option ItkProcessObject → List EventCommand → Option ItkProcessObject × List EventCommand
  | active, [] => (active, [])
  | active, i :: rest =>
      if cmd = i.m_Command then
        match active with
        | some p =>
            if i.m_ITKTag ≠ unsignedLongMax then
              onCommandDeleteLoop cmd (some (p.RemoveObserver i.m_ITKTag)) rest
            else
              onCommandDeleteLoop cmd (some p) rest
        | none => onCommandDeleteLoop cmd none rest
      else
        let r := onCommandDeleteLoop cmd active rest
        (r.1, i :: r.2)

/-- Member `onCommandDelete`. -/
def onCommandDelete (self : ProcessObject) (cmd : CommandPtr) : ProcessObject :=
  let r := onCommandDeleteLoop cmd self.m_ActiveProcess self.m_Commands
  { self with m_ActiveProcess := r.1, m_Commands := r.2 }

end ProcessObject

/-- A call on a process wrapper: one of the members that change its associations or
its active operation. -/
inductive Call where
  | addCommand (event : EventEnum) (cmd : CommandPtr)
  | removeAllCommands
  | preUpdate (p : ItkProcessObject)
  | onActiveProcessDelete
  | onCommandDelete (cmd : CommandPtr)

/-- Runs a call on a wrapper whose class has `addObserver` as its
`PreUpdateAddObserver`. -/
def Call.run (addObserver : AddObserverMethod) (self : ProcessObject) : Call → Outcome ProcessObject
  | .addCommand event cmd => self.AddCommand addObserver event cmd
  | .removeAllCommands => ⟨self.RemoveAllCommands.1, none⟩
  | .preUpdate p => ⟨(self.PreUpdate addObserver p).self, (self.PreUpdate addObserver p).thrown⟩
  | .onActiveProcessDelete => ⟨self.OnActiveProcessDelete, none⟩
  | .onCommandDelete cmd => ⟨self.onCommandDelete cmd, none⟩

/-- The states of a wrapper that are reached from a freshly constructed one by calls
that return without throwing. -/
inductive Reachable (addObserver : AddObserverMethod) : ProcessObject → Prop where
  | create (globalDefaultDebug : Bool) (globalDefaultNumberOfThreads : Nat) :
      Reachable addObserver (ProcessObject.create globalDefaultDebug globalDefaultNumberOfThreads)
  | step (s : ProcessObject) (c : Call) :
      Reachable addObserver s → (c.run addObserver s).thrown = none →
        Reachable addObserver (c.run addObserver s).self

/-- A sequence of `AddCommand` calls, each given by its event kind and its callback. -/
def addCommands (addObserver : AddObserverMethod) (self : ProcessObject) :
    List (EventEnum × CommandPtr) → ProcessObject
  | [] => self
  | (event, cmd) :: rest => addCommands addObserver (self.AddCommand addObserver event cmd).self rest

/-- The calls that are possible on a wrapper without a native operation being handed
to it or deleted. -/
inductive IdleCall where
  | addCommand (event : EventEnum) (cmd : CommandPtr)
  | removeAllCommands
  | onCommandDelete (cmd : CommandPtr)

/-- Runs a sequence of such calls. -/
def runIdleCalls (addObserver : AddObserverMethod) (self : ProcessObject) :
    List IdleCall → ProcessObject
  | [] => self
  | .addCommand event cmd :: rest =>
      runIdleCalls addObserver (self.AddCommand addObserver event cmd).self rest
  | .removeAllCommands :: rest => runIdleCalls addObserver self.RemoveAllCommands.1 rest
  | .onCommandDelete cmd :: rest => runIdleCalls addObserver (self.onCommandDelete cmd) rest

/-- Every association holds a subscription handle if an operation is active, and the
sentinel if none is. -/
def TagInvariant (s : ProcessObject) : Prop :=
  (s.m_ActiveProcess.isSome → ∀ i ∈ s.m_Commands, i.m_ITKTag ≠ unsignedLongMax) ∧
  (s.m_ActiveProcess = none → ∀ i ∈ s.m_Commands, i.m_ITKTag = unsignedLongMax)

/-- The subscription handles that `onCommandDelete(cmd)` hands to `RemoveObserver`:
the tags, other than the sentinel, of the associations of the callback. -/
def removedTags (cmd : CommandPtr) (l : List EventCommand) : List Nat :=
  (l.filter (fun i => decide (cmd = i.m_Command ∧ i.m_ITKTag ≠ unsignedLongMax))).map
    (fun i => i.m_ITKTag)

/-- The observer that bridges to the callback of an association, under the tag that
the association holds, when its event kind has a native event. -/
def bridgingObserver (i : EventCommand) : Option Observer :=
  match GetITKEventObject i.m_Event with
  | .ok itkEvent => some ⟨i.m_ITKTag, itkEvent, .SimpleAdaptorCommand i.m_Command⟩
  | .error _ => none

/-- A member call that the wrapper makes on a native operation. -/
inductive NativeCall where
  | SetNumberOfThreads (n : Nat)
  | AddObserver (e : ItkEventObject) (c : ItkCommand)
  | RemoveObserver (tag : Nat)
  | AbortGenerateDataOn

/-- Runs a member call on a native operation. -/
def NativeCall.run (p : ItkProcessObject) : NativeCall → ItkProcessObject
  | .SetNumberOfThreads n => p.SetNumberOfThreads n
  | .AddObserver e c => (p.AddObserver e c).2
  | .RemoveObserver tag => p.RemoveObserver tag
  | .AbortGenerateDataOn => p.AbortGenerateDataOn

/-- The native operation `q` is the native operation `p` after some member calls: as
the operation is carried by value, this is how it is told to be the same object. -/
def Evolves (p q : ItkProcessObject) : Prop :=
  ∃ calls : List NativeCall, calls.foldl NativeCall.run p = q

/-- A call on a process wrapper, `Abort` included. -/
inductive WrapperCall where
  | call (c : Call)
  | abort

/-- The wrapper as a call leaves it, whether the call throws or not. -/
def WrapperCall.run (addObserver : AddObserverMethod) (self : ProcessObject) :
    WrapperCall → ProcessObject
  | .call c => (c.run addObserver self).self
  | .abort => self.Abort

/-- The wrapper as a sequence of calls leaves it. -/
def runCalls (addObserver : AddObserverMethod) : ProcessObject → List WrapperCall → ProcessObject
  | self, [] => self
  | self, c :: rest => runCalls addObserver (c.run addObserver self) rest

/-- The native operation that was passed to the most recent `PreUpdate` call that
returned without throwing, after one more call: `last` is that operation before the
call. -/
def activationAfter (addObserver : AddObserverMethod) (self : ProcessObject)
    (last : Option ItkProcessObject) : WrapperCall → Option ItkProcessObject
  | .call (.preUpdate p) =>
      if (self.PreUpdate addObserver p).thrown = none then some p else last
  | _ => last

/-- The native operation that was passed to the most recent `PreUpdate` call of a
sequence that returned without throwing, after `last` if there is none. -/
def lastActivation (addObserver : AddObserverMethod) :
    ProcessObject → Option ItkProcessObject → List WrapperCall → Option ItkProcessObject
  | _, last, [] => last
  | self, last, c :: rest =>
      lastActivation addObserver (c.run addObserver self)
        (activationAfter addObserver self last c) rest

/-! ## Size, coordinate transforms and copies of the image handle -/

namespace PimpleImage

variable {T : ImageType}

/-- Member `GetSize(unsigned int dimension)`. The comparison is made in `unsigned int`
arithmetic, and the native extent (an `unsigned long`) is converted to the
`unsigned int` that is returned. -/
def GetSizeOf (self : PimpleImage T) (dimension : Nat) : Nat :=
  if dimension > (T.ImageDimension + 2 ^ 32 - 1) % 2 ^ 32 then 0
  else (self.m_Image.m_Size.val.getD dimension 0) % 2 ^ 32

/-- Member `GetSize(void)`: a vector of `ImageDimension` entries of type
`unsigned int`, filled from the extents of the largest possible region. -/
def GetSize (self : PimpleImage T) : List Nat :=
  (List.range T.ImageDimension).map (fun i => (self.m_Image.m_Size.val.getD i 0) % 2 ^ 32)

/-- Member `TransformPhysicalPointToIndex`. The native transform computes in floating
point and is the argument `native`; it does not throw. -/
def TransformPhysicalPointToIndex
    (native : ItkImage (PixelType T.PixelIDType) T.ImageDimension →
      FixedArray Double T.ImageDimension → FixedArray Int T.ImageDimension)
    (self : PimpleImage T) (pt : List Double) : Except Exception (List Int) :=
  if h : pt.length ≠ T.ImageDimension then
    .error .vectorDimensionMismatch
  else
    .ok ((List.range T.ImageDimension).map
      (fun i => (native self.m_Image ⟨pt, not_not.mp h⟩).val.getD i 0))

/-- Member `TransformIndexToPhysicalPoint`. The native transform computes in floating
point and is the argument `native`; it does not throw. -/
def TransformIndexToPhysicalPoint
    (native : ItkImage (PixelType T.PixelIDType) T.ImageDimension →
      FixedArray Int T.ImageDimension → FixedArray Double T.ImageDimension)
    (self : PimpleImage T) (idx : List Int) : Except Exception (List Double) :=
  if idx.length ≠ T.ImageDimension then
    .error .vectorDimensionMismatch
  else
    .ok (native self.m_Image
      ⟨(List.range T.ImageDimension).map (fun i => idx.getD i 0), by simp⟩).val

end PimpleImage

/-- The native images of image type `T` in memory: the image at each address, and the
first address that is free (the images that are alive are the ones below it). -/
structure ImageMemory (T : ImageType) where
  image : Nat → ItkImage (PixelType T.PixelIDType) T.ImageDimension
  next : Nat

/-- An object of class `PimpleImage<TImageType>` with its member `m_Image` as the
smart pointer that it is: the address of a native image. Several objects may hold the
same address. -/
structure ImageHandle (T : ImageType) where
  m_Image : Nat
  dimension_ok : T.ImageDimension = 3 ∨ T.ImageDimension = 2

namespace ImageHandle

variable {T : ImageType}

/-- The constructor `PimpleImage(ImageType* image)`, which throws on a null pointer. -/
def create (T : ImageType) (ok : T.ImageDimension = 3 ∨ T.ImageDimension = 2) :
    Option Nat → Except Exception (ImageHandle T)
  | none => .error .nullImage
  | some address => .ok ⟨address, ok⟩

/-- The handle together with the native image that it points to. -/
def object (h : ImageHandle T) (mem : ImageMemory T) : PimpleImage T :=
  ⟨mem.image h.m_Image, h.dimension_ok⟩

/-- Writes back what a member function has left of the native image of the handle. -/
def update (h : ImageHandle T) (mem : ImageMemory T) (r : Outcome (PimpleImage T)) :
    Outcome (ImageMemory T) :=
  ⟨{ mem with image := Function.update mem.image h.m_Image r.self.m_Image }, r.thrown⟩

/-- Member `GetOrigin`, through the pointer. -/
def GetOrigin (h : ImageHandle T) (mem : ImageMemory T) : List Double :=
  (h.object mem).GetOrigin

/-- Member `SetOrigin`, through the pointer. -/
def SetOrigin (h : ImageHandle T) (mem : ImageMemory T) (orgn : List Double) :
    Outcome (ImageMemory T) :=
  h.update mem ((h.object mem).SetOrigin orgn)

/-- Member `GetSpacing`, through the pointer. -/
def GetSpacing (h : ImageHandle T) (mem : ImageMemory T) : List Double :=
  (h.object mem).GetSpacing

/-- Member `SetSpacing`, through the pointer. -/
def SetSpacing (h : ImageHandle T) (mem : ImageMemory T) (spc : List Double) :
    Outcome (ImageMemory T) :=
  h.update mem ((h.object mem).SetSpacing spc)

/-- The members `GetPixelAs...`, through the pointer. -/
def getPixelAs (a : Accessor) (h : ImageHandle T) (mem : ImageMemory T) (idx : List Nat) :
    Except Exception a.component.Value :=
  SimpleITK.getPixelAs a (h.object mem) idx

/-- The members `SetPixelAs...`, through the pointer. -/
def setPixelAs (a : Accessor) (h : ImageHandle T) (mem : ImageMemory T) (idx : List Nat)
    (v : a.component.Value) : Outcome (ImageMemory T) :=
  h.update mem (SimpleITK.setPixelAs a (h.object mem) idx v)

/-- Member `ShallowCopy`: a new object made from the pointer of this one. -/
def ShallowCopy (h : ImageHandle T) : Except Exception (ImageHandle T) :=
  create T h.dimension_ok (some h.m_Image)

/-- Member `DeepCopy`: the memory that the call leaves, and the new object or the
exception. Which of the two overloads is selected depends on `IsLabel<TImageType>`,
modelled from the spec as the label kind of the tag. The native duplicator puts a copy
of the image at a fresh address; its failing for lack of memory is not modelled. -/
def DeepCopy (h : ImageHandle T) (mem : ImageMemory T) :
    ImageMemory T × Except Exception (ImageHandle T) :=
  if IsLabel T.PixelIDType then
    (mem, .error .notImplementedYet)
  else
    ({ image := Function.update mem.image mem.next (mem.image h.m_Image)
       next := mem.next + 1 },
      create T h.dimension_ok (some mem.next))

end ImageHandle

/-! ## Concrete objects used to evaluate the definitions -/

/-- A native 2-dimensional image of `n0 * n1` pixels, all equal to `v`, with origin
`(0, 0)`, spacing bits `(1, 1)` and a region that starts at `(0, 0)`. -/
def ItkImage.filled {V : Type} (n0 n1 : Nat) (v : V) : ItkImage V 2 :=
  { m_Origin := ⟨[0, 0], rfl⟩
    m_Spacing := ⟨[1, 1], rfl⟩
    m_Index := ⟨[0, 0], rfl⟩
    m_Size := ⟨[n0, n1], rfl⟩
    m_Buffer := List.replicate (n0 * n1) v
    buffer_length := by simp }

/-- A 2 by 2 image of 16-bit unsigned integers, all zero. -/
def exampleUInt16Image : PimpleImage ⟨2, .basic .uint16⟩ :=
  ⟨ItkImage.filled 2 2 (0 : Bits 16), Or.inr rfl⟩

/-- A 2 by 2 image of 8-bit signed integers, all zero. -/
def exampleInt8Image : PimpleImage ⟨2, .basic .int8⟩ :=
  ⟨ItkImage.filled 2 2 (0 : Bits 8), Or.inr rfl⟩

/-- A 2 by 2 vector image of floats, every pixel the empty vector. -/
def exampleVectorFloatImage : PimpleImage ⟨2, .vector .float⟩ :=
  ⟨ItkImage.filled 2 2 ([] : List (Bits 32)), Or.inr rfl⟩

/-- A native operation that has no observer yet, with progress bits `p`. -/
def exampleOperation (p : Float32) : ItkProcessObject :=
  { m_NumberOfThreads := 1
    m_Progress := p
    m_AbortGenerateData := false
    m_Observers := []
    m_Count := 0 }

/-- An overriding `PreUpdateAddObserver` that throws when the tag which the native
operation would hand out is the sentinel, and is the member of the base class
otherwise. -/
def guardedAddObserver : AddObserverMethod :=
  fun p e c =>
    if p.m_Count = unsignedLongMax then (.error (.native "no tag left"), p)
    else ProcessObject.PreUpdateAddObserver p e c

/-- A fresh wrapper to which callback 1 is attached for the event kind Any and
callback 2 for an event kind that has no native event. -/
def exampleWrapperUnmapped : ProcessObject :=
  addCommands ProcessObject.PreUpdateAddObserver (ProcessObject.create false 1)
    [(.sitkAnyEvent, 1), (.unregistered 3, 2)]

/-- A fresh wrapper to which callback 1 is attached for the event kind Any, and which
is then activated on a native operation. -/
def exampleWrapperActive : ProcessObject :=
  ((addCommands ProcessObject.PreUpdateAddObserver (ProcessObject.create false 1)
    [(.sitkAnyEvent, 1)]).PreUpdate ProcessObject.PreUpdateAddObserver
      (exampleOperation 1056964608)).self

/-- The state that a fresh wrapper of the class with `guardedAddObserver` reaches by
attaching callback 1 for the event kind Any and being activated on a native
operation. -/
def exampleReached : ProcessObject :=
  ((Call.preUpdate (exampleOperation 0)).run guardedAddObserver
    ((Call.addCommand .sitkAnyEvent 1).run guardedAddObserver
      (ProcessObject.create false 1)).self).self

/-- A memory whose only live image, at address 0, is the 2 by 2 image of 16-bit
unsigned integers, all zero. -/
def exampleMemory : ImageMemory ⟨2, .basic .uint16⟩ :=
  { image := fun _ => ItkImage.filled 2 2 (0 : Bits 16)
    next := 1 }

/-- A handle on the image at address 0. -/
def exampleHandle : ImageHandle ⟨2, .basic .uint16⟩ := ⟨0, Or.inr rfl⟩

/-- A fresh wrapper that is activated with no association, to which callback 1 is then
attached for an event kind that has no native event (the call throws and leaves the
association behind) and callback 2 for the event kind Any. -/
def exampleWrapperMixed : ProcessObject :=
  addCommands ProcessObject.PreUpdateAddObserver
    ((ProcessObject.create false 1).PreUpdate ProcessObject.PreUpdateAddObserver
      (exampleOperation 0)).self
    [(.unregistered 3, 1), (.sitkAnyEvent, 2)]

/-- A fresh wrapper to which callback 1 is attached for the event kind Any and
callback 2 for the event kind End. -/
def exampleWrapperIdle : ProcessObject :=
  addCommands ProcessObject.PreUpdateAddObserver (ProcessObject.create false 4)
    [(.sitkAnyEvent, 1), (.sitkEndEvent, 2)]

/-! ## Lemmas on the native image -/

theorem computeOffset_bounds :
    ∀ (idx start : List Int) (size : List Nat), insideRegion idx start size →
      0 ≤ computeOffset idx start size ∧ computeOffset idx start size < (size.prod : Int)
  | [], [], [], _ => by simp [computeOffset]
  | i :: idx, s :: start, n :: size, h => by
      obtain ⟨h1, h2, h3⟩ := h
      obtain ⟨ih1, ih2⟩ := computeOffset_bounds idx start size h3
      have hn : (0 : Int) ≤ n := Int.ofNat_nonneg n
      simp only [computeOffset, List.prod_cons, Nat.cast_mul]
      constructor
      · nlinarith
      · nlinarith
  | [], [], _ :: _, h => absurd h (by simp [insideRegion])
  | [], _ :: _, _, h => absurd h (by simp [insideRegion])
  | _ :: _, [], _, h => absurd h (by simp [insideRegion])
  | _ :: _, _ :: _, [], h => absurd h (by simp [insideRegion])

theorem ItkImage.GetPixel_SetPixel {V : Type} {D : Nat} [Inhabited V] (img : ItkImage V D)
    (index : FixedArray Int D) (v : V)
    (h : insideRegion index.val img.m_Index.val img.m_Size.val) :
    (img.SetPixel index v).GetPixel index = v := by
  obtain ⟨h0, h1⟩ := computeOffset_bounds _ _ _ h
  generalize ho : computeOffset index.val img.m_Index.val img.m_Size.val = o at h0 h1
  cases o with
  | ofNat k =>
      have hk : k < img.m_Buffer.length := by
        rw [img.buffer_length]
        exact Int.ofNat_lt.mp h1
      simp only [ItkImage.SetPixel, ho, ItkImage.GetPixel]
      simp [List.getD_eq_getElem?_getD, hk]
  | negSucc k => exact absurd h0 (by simp)

theorem range_map_getD_eq_take (idx : List Nat) :
    ∀ (D : Nat), D ≤ idx.length →
      (List.range D).map (fun i => ((idx.getD i 0 : Nat) : Int))
        = (idx.take D).map (fun (n : Nat) => (n : Int)) := by
  intro D hD
  apply List.ext_getElem
  · simp [hD]
  · intro k h1 h2
    simp only [List.length_map, List.length_range] at h1
    simp [List.getD_eq_getElem?_getD, List.getElem?_eq_getElem (lt_of_lt_of_le h1 hD)]

theorem ConvertSTLToIndex_short (T : ImageType) (idx : List Nat)
    (h : idx.length < T.ImageDimension) :
    PimpleImage.ConvertSTLToIndex T idx = .error .indexSizeMismatch := by
  simp [PimpleImage.ConvertSTLToIndex, h]

theorem ConvertSTLToIndex_long (T : ImageType) (idx : List Nat)
    (h : T.ImageDimension ≤ idx.length) :
    ∃ index, PimpleImage.ConvertSTLToIndex T idx = .ok index
      ∧ index.val = (idx.take T.ImageDimension).map (fun (n : Nat) => (n : Int)) := by
  refine ⟨⟨(List.range T.ImageDimension).map (fun i => ((idx.getD i 0 : Nat) : Int)), by simp⟩,
    ?_, range_map_getD_eq_take idx _ h⟩
  simp [PimpleImage.ConvertSTLToIndex, Nat.not_lt.mpr h]

theorem getPixelAs_eq {T : ImageType} (a : Accessor) (self : PimpleImage T) (idx : List Nat) :
    getPixelAs a self idx = self.InternalGetPixel a.tag idx := by
  cases a <;> rfl

theorem setPixelAs_eq {T : ImageType} (a : Accessor) (self : PimpleImage T) (idx : List Nat)
    (v : a.component.Value) :
    setPixelAs a self idx v = self.InternalSetPixel a.component idx v := by
  cases a <;> rfl

theorem InternalGetPixel_mismatch {T : ImageType} (P : PixelID) (self : PimpleImage T)
    (idx : List Nat) (h : P ≠ T.PixelIDType) :
    self.InternalGetPixel P idx = .error (.pixelTypeMismatch T.PixelIDType P) := by
  simp [PimpleImage.InternalGetPixel, h, PimpleImage.GetPixelIDValue]

theorem InternalSetPixel_mismatch {T : ImageType} (c : ComponentType) (self : PimpleImage T)
    (idx : List Nat) (v : c.Value) (h : PixelID.basic c ≠ T.PixelIDType) :
    self.InternalSetPixel c idx v = ⟨self, some .notSupportedForImageType⟩ := by
  simp [PimpleImage.InternalSetPixel, h]

theorem InternalGetPixel_match {D : Nat} (c : ComponentType)
    (self : PimpleImage ⟨D, .basic c⟩) (idx : List Nat) :
    self.InternalGetPixel (.basic c) idx =
      match PimpleImage.ConvertSTLToIndex ⟨D, .basic c⟩ idx with
      | .error e => .error e
      | .ok index => .ok (self.m_Image.GetPixel index) := by
  simp only [PimpleImage.InternalGetPixel, IsVector, dite_true, Bool.false_eq_true, ite_false]
  cases PimpleImage.ConvertSTLToIndex ⟨D, .basic c⟩ idx <;> rfl

theorem InternalSetPixel_match {D : Nat} (c : ComponentType)
    (self : PimpleImage ⟨D, .basic c⟩) (idx : List Nat) (v : c.Value) :
    self.InternalSetPixel c idx v =
      match PimpleImage.ConvertSTLToIndex ⟨D, .basic c⟩ idx with
      | .error e => ⟨self, some e⟩
      | .ok index => ⟨{ self with m_Image := self.m_Image.SetPixel index v }, none⟩ := by
  simp only [PimpleImage.InternalSetPixel, dite_true]
  cases PimpleImage.ConvertSTLToIndex ⟨D, .basic c⟩ idx <;> rfl

theorem data_isInfix_append (a b c : String) : b.data <:+: (a ++ b ++ c).data :=
  ⟨a.data, c.data, by simp [String.data_append]⟩

theorem getPixelAs_mismatch {T : ImageType} (a : Accessor) (self : PimpleImage T)
    (idx : List Nat) (h : a.tag ≠ T.PixelIDType) :
    getPixelAs a self idx = .error (.pixelTypeMismatch T.PixelIDType a.tag) := by
  rw [getPixelAs_eq, InternalGetPixel_mismatch _ _ _ h]

theorem getPixelAs_ok_tag {T : ImageType} (a : Accessor) (self : PimpleImage T)
    (idx : List Nat) (v : a.component.Value) (h : getPixelAs a self idx = .ok v) :
    a.tag = T.PixelIDType := by
  by_contra hne
  rw [getPixelAs_mismatch a self idx hne] at h
  cases h

theorem setPixelAs_mismatch {T : ImageType} (a : Accessor) (self : PimpleImage T)
    (idx : List Nat) (v : a.component.Value) (h : a.tag ≠ T.PixelIDType) :
    setPixelAs a self idx v = ⟨self, some .notSupportedForImageType⟩ := by
  rw [setPixelAs_eq, InternalSetPixel_mismatch _ _ _ _ h]

theorem Accessor.tag_ne_int8 (a : Accessor) : a.tag ≠ PixelID.basic .int8 := by
  cases a <;> simp [Accessor.tag, Accessor.component]

/-! ## Element access -/

/-- C1. On a handle whose tag is the scalar tag `basic U`, for each of the `getPixelAs`
accessors and every index vector: the read succeeds only if the tag of the accessor is
the tag of the handle; when the two tags differ the read throws the type mismatch
exception, whose message is built from the name of the tag of the image and the name
of the tag required by the accessor and contains both names, and the outcome is the
same for every handle of this image type, whatever its storage holds. -/
theorem getPixelAs_scalar_type_check (name : PixelID → String) (D : Nat) (U : ComponentType)
    (self : PimpleImage ⟨D, .basic U⟩) (a : Accessor) (idx : List Nat) :
    ((∃ v, getPixelAs a self idx = .ok v) → a.tag = .basic U) ∧
    (a.tag ≠ .basic U →
      getPixelAs a self idx = .error (.pixelTypeMismatch (.basic U) a.tag) ∧
      (Exception.pixelTypeMismatch (.basic U) a.tag).what name =
        "The image is of type: " ++ name (.basic U)
          ++ " but the GetPixel access method requires type: " ++ name a.tag ++ "!" ∧
      (name (.basic U)).data <:+: ((Exception.pixelTypeMismatch (.basic U) a.tag).what name).data ∧
      (name a.tag).data <:+: ((Exception.pixelTypeMismatch (.basic U) a.tag).what name).data ∧
      ∀ other : PimpleImage ⟨D, .basic U⟩,
        getPixelAs a other idx = .error (.pixelTypeMismatch (.basic U) a.tag)) := by
  refine ⟨fun ⟨v, hv⟩ => getPixelAs_ok_tag a self idx v hv, fun h => ⟨?_, rfl, ?_, ?_, ?_⟩⟩
  · exact getPixelAs_mismatch a self idx h
  · exact ⟨"The image is of type: ".data,
      (" but the GetPixel access method requires type: " ++ name a.tag ++ "!").data,
      by simp [Exception.what, String.data_append]⟩
  · exact ⟨("The image is of type: " ++ name (.basic U)
        ++ " but the GetPixel access method requires type: ").data, "!".data,
      by simp [Exception.what, String.data_append]⟩
  · intro other
    exact getPixelAs_mismatch a other idx h

/-- C2, as stated, fails for the 8-bit signed element type: no accessor declares that
type, and on an image of 8-bit signed integers every `setPixelAs` accessor throws, at
an index that is in range. -/
theorem setPixelAs_int8_counterexample :
    (¬ ∃ a : Accessor, a.tag = PixelID.basic .int8) ∧
    inRange exampleInt8Image [0, 0] ∧
    (¬ ∃ (a : Accessor) (v : a.component.Value),
      (setPixelAs a exampleInt8Image [0, 0] v).thrown = none) := by
  refine ⟨fun ⟨a, h⟩ => a.tag_ne_int8 h, by decide, ?_⟩
  rintro ⟨a, v, h⟩
  rw [setPixelAs_mismatch a exampleInt8Image [0, 0] v a.tag_ne_int8] at h
  cases h

/-- C2, amended. Write/read identity for each of the seven element types that have
accessors (8-bit unsigned, 16- and 32-bit signed and unsigned, float, double): on a
handle of dimension `D` whose tag is that type, for every value `v` and index vectors
`i`, `j` of length at least `D` that agree on their first `D` components and are in
range, `setPixelAs` at `i` does not throw and a following `getPixelAs` at `j` returns
`v`. -/
theorem setPixelAs_getPixelAs_identity (a : Accessor) (D : Nat)
    (self : PimpleImage ⟨D, .basic a.component⟩) (v : a.component.Value) (i j : List Nat)
    (hi : D ≤ i.length) (hj : D ≤ j.length) (hij : i.take D = j.take D)
    (hr : inRange self i) :
    (setPixelAs a self i v).thrown = none ∧
      getPixelAs a (setPixelAs a self i v).self j = .ok v := by
  obtain ⟨ii, hii, hiv⟩ := ConvertSTLToIndex_long ⟨D, .basic a.component⟩ i hi
  obtain ⟨jj, hjj, hjv⟩ := ConvertSTLToIndex_long ⟨D, .basic a.component⟩ j hj
  have hsame : jj = ii := by
    apply Subtype.ext
    rw [hiv, hjv]
    exact congrArg _ hij.symm
  subst hsame
  have hin : insideRegion jj.val self.m_Image.m_Index.val self.m_Image.m_Size.val := by
    rw [hiv]
    exact hr
  rw [setPixelAs_eq, InternalSetPixel_match, hii]
  refine ⟨rfl, ?_⟩
  rw [getPixelAs_eq]
  show PimpleImage.InternalGetPixel (.basic a.component) _ j = _
  rw [InternalGetPixel_match, hjj]
  exact congrArg Except.ok (ItkImage.GetPixel_SetPixel self.m_Image jj v hin)

/-- Witness of C2, amended: on the 2 by 2 image of 16-bit unsigned integers, the value
513 written at `[1, 0, 7]` is read back at `[1, 0]`. -/
theorem setPixelAs_getPixelAs_identity_witness :
    (setPixelAs .UInt16 exampleUInt16Image [1, 0, 7] (513 : Bits 16)).thrown = none ∧
      getPixelAs .UInt16 (setPixelAs .UInt16 exampleUInt16Image [1, 0, 7] (513 : Bits 16)).self
        [1, 0] = .ok (513 : Bits 16) :=
  setPixelAs_getPixelAs_identity .UInt16 2 exampleUInt16Image (513 : Bits 16) [1, 0, 7] [1, 0]
    (by decide) (by decide) (by decide) (by decide)

/-- C3, as stated, fails: on a vector image of floats, `getPixelAs` for float throws
the type mismatch exception, which is not the exception of the vector overload. -/
theorem getPixelAs_vector_counterexample :
    getPixelAs .Float exampleVectorFloatImage [0, 0]
        = .error (.pixelTypeMismatch (.vector .float) (.basic .float)) ∧
      getPixelAs .Float exampleVectorFloatImage [0, 0] ≠ .error .notSupportedForVectorImages := by
  have h : getPixelAs .Float exampleVectorFloatImage [0, 0]
      = .error (.pixelTypeMismatch (.vector .float) (.basic .float)) :=
    getPixelAs_mismatch .Float exampleVectorFloatImage [0, 0] (by decide)
  refine ⟨h, ?_⟩
  rw [h]
  intro hc
  cases hc

/-- C3, amended. On a handle whose tag is vector-kind, every `getPixelAs` accessor, at
every index, throws the type mismatch exception that names the vector tag of the image
and the tag of the accessor, whatever the storage holds; the overload for vector images
is selected only when the requested pixel identifier is itself the vector tag. -/
theorem getPixelAs_vector_type_mismatch (D : Nat) (c : ComponentType)
    (self : PimpleImage ⟨D, .vector c⟩) (a : Accessor) (idx : List Nat) :
    getPixelAs a self idx = .error (.pixelTypeMismatch (.vector c) a.tag) ∧
      self.InternalGetPixel (.vector c) idx = .error .notSupportedForVectorImages := by
  refine ⟨getPixelAs_mismatch a self idx (by simp [Accessor.tag]), ?_⟩
  simp [PimpleImage.InternalGetPixel, IsVector]

/-- C4 at a failing input. On the 2 by 2 image of 16-bit unsigned integers,
`setPixelAs` for float at `[0, 0]` throws the exception whose message is "This method
is not supported for this image type." under every naming of the tags, not the
exception that names the two tags; the storage is unchanged. -/
theorem setPixelAs_mismatch_message :
    (setPixelAs .Float exampleUInt16Image [0, 0] (1 : Bits 32)).thrown
        = some .notSupportedForImageType ∧
      (setPixelAs .Float exampleUInt16Image [0, 0] (1 : Bits 32)).thrown
        ≠ some (.pixelTypeMismatch (.basic .uint16) (.basic .float)) ∧
      (∀ name : PixelID → String, Exception.what name .notSupportedForImageType
        = "This method is not supported for this image type.") ∧
      (setPixelAs .Float exampleUInt16Image [0, 0] (1 : Bits 32)).self.m_Image.m_Buffer
        = exampleUInt16Image.m_Image.m_Buffer := by
  have h := setPixelAs_mismatch .Float exampleUInt16Image [0, 0] (1 : Bits 32) (by decide)
  rw [h]
  exact ⟨rfl, by simp, fun _ => rfl, rfl⟩

/-- C5. On a handle of dimension `D` and for an accessor whose tag is the scalar tag of
the handle, `getPixelAs` and `setPixelAs` throw the index size exception exactly when
the index vector has fewer than `D` entries, and then the handle is unchanged; an index
vector of at least `D` entries is accepted and converted to the native index made of
its first `D` entries, at which the native image is read or written. -/
theorem pixel_access_index_length (a : Accessor) (D : Nat)
    (self : PimpleImage ⟨D, .basic a.component⟩) (idx : List Nat) (v : a.component.Value) :
    (getPixelAs a self idx = .error .indexSizeMismatch ↔ idx.length < D) ∧
    ((setPixelAs a self idx v).thrown = some .indexSizeMismatch ↔ idx.length < D) ∧
    (idx.length < D → (setPixelAs a self idx v).self = self) ∧
    (D ≤ idx.length → ∃ index : FixedArray Int D,
      index.val = (idx.take D).map (fun (n : Nat) => (n : Int)) ∧
      PimpleImage.ConvertSTLToIndex ⟨D, .basic a.component⟩ idx = .ok index ∧
      getPixelAs a self idx = .ok (self.m_Image.GetPixel index) ∧
      setPixelAs a self idx v
        = ⟨{ self with m_Image := self.m_Image.SetPixel index v }, none⟩) := by
  have hget : getPixelAs a self idx = _ :=
    (getPixelAs_eq a self idx).trans (InternalGetPixel_match a.component self idx)
  have hset : setPixelAs a self idx v = _ :=
    (setPixelAs_eq a self idx v).trans (InternalSetPixel_match a.component self idx v)
  rcases Nat.lt_or_ge idx.length D with hlt | hge
  · have hc := ConvertSTLToIndex_short ⟨D, .basic a.component⟩ idx hlt
    rw [hc] at hget hset
    refine ⟨⟨fun _ => hlt, fun _ => hget⟩, ⟨fun _ => hlt, fun _ => by rw [hset]⟩,
      fun _ => by rw [hset], fun h => absurd hlt (Nat.not_lt.mpr h)⟩
  · obtain ⟨index, hc, hv⟩ := ConvertSTLToIndex_long ⟨D, .basic a.component⟩ idx hge
    rw [hc] at hget hset
    refine ⟨⟨fun h => ?_, fun h => absurd h (Nat.not_lt.mpr hge)⟩,
      ⟨fun h => ?_, fun h => absurd h (Nat.not_lt.mpr hge)⟩,
      fun h => absurd h (Nat.not_lt.mpr hge), fun _ => ⟨index, hv, hc, hget, hset⟩⟩
    · rw [hget] at h
      cases h
    · rw [hset] at h
      cases h

/-! ## Geometry -/

/-- C6. On a handle of dimension `D`, `SetOrigin(v)` throws its dimension mismatch
exception exactly when the length of `v` is not `D`, and then leaves the handle (so
origin and spacing) unchanged; otherwise it does not throw, `GetOrigin` then returns
`v`, and the spacing is unchanged. The same holds for `SetSpacing` and `GetSpacing`,
with the origin unchanged. -/
theorem setOrigin_setSpacing_contract (T : ImageType) (self : PimpleImage T)
    (v : List Double) :
    (((self.SetOrigin v).thrown = some .setOriginDimensionMismatch ↔ v.length ≠ T.ImageDimension) ∧
      ((self.SetOrigin v).thrown = none ↔ v.length = T.ImageDimension) ∧
      (v.length ≠ T.ImageDimension → (self.SetOrigin v).self = self) ∧
      (v.length = T.ImageDimension →
        (self.SetOrigin v).self.GetOrigin = v ∧
        (self.SetOrigin v).self.GetSpacing = self.GetSpacing)) ∧
    (((self.SetSpacing v).thrown = some .setSpacingDimensionMismatch ↔ v.length ≠ T.ImageDimension) ∧
      ((self.SetSpacing v).thrown = none ↔ v.length = T.ImageDimension) ∧
      (v.length ≠ T.ImageDimension → (self.SetSpacing v).self = self) ∧
      (v.length = T.ImageDimension →
        (self.SetSpacing v).self.GetSpacing = v ∧
        (self.SetSpacing v).self.GetOrigin = self.GetOrigin)) := by
  by_cases h : v.length = T.ImageDimension
  · simp [PimpleImage.SetOrigin, PimpleImage.SetSpacing, h, PimpleImage.GetOrigin,
      PimpleImage.GetSpacing, ItkImage.SetOrigin, ItkImage.SetSpacing, ItkImage.GetOrigin,
      ItkImage.GetSpacing]
  · simp [PimpleImage.SetOrigin, PimpleImage.SetSpacing, h]

/-! ## Lemmas on the process wrapper -/

theorem uniqueAfter_spec : ∀ (l : List EventCommand) (prev : EventCommand),
    (prev :: l).Pairwise (fun a b => a.m_Command ≤ b.m_Command) →
    ((uniqueAfter prev l).map (fun i => i.m_Command)).Pairwise (fun x y => x < y) ∧
    ∀ c, c ∈ (uniqueAfter prev l).map (fun i => i.m_Command) ↔
      (c ∈ l.map (fun i => i.m_Command) ∧ c ≠ prev.m_Command) := by
  intro l
  induction l with
  | nil => intro prev _; simp [uniqueAfter]
  | cons i rest ih =>
      intro prev h
      rw [List.pairwise_cons] at h
      obtain ⟨hprev, hrest⟩ := h
      have hrest2 := hrest
      rw [List.pairwise_cons] at hrest2
      obtain ⟨hi, hrr⟩ := hrest2
      by_cases heq : prev.m_Command = i.m_Command
      · have hp : (prev :: rest).Pairwise (fun a b => a.m_Command ≤ b.m_Command) :=
          List.pairwise_cons.mpr ⟨fun b hb => hprev b (List.mem_cons_of_mem _ hb), hrr⟩
        obtain ⟨ih1, ih2⟩ := ih prev hp
        have hu : uniqueAfter prev (i :: rest) = uniqueAfter prev rest := by
          simp [uniqueAfter, EventCommand.eq, heq]
        rw [hu]
        refine ⟨ih1, fun c => ?_⟩
        rw [ih2 c]
        constructor
        · rintro ⟨hc, hne⟩
          exact ⟨by simp only [List.map_cons, List.mem_cons]; exact Or.inr hc, hne⟩
        · rintro ⟨hc, hne⟩
          simp only [List.map_cons, List.mem_cons] at hc
          rcases hc with hc | hc
          · exact absurd (hc.trans heq.symm) hne
          · exact ⟨hc, hne⟩
      · obtain ⟨ih1, ih2⟩ := ih i hrest
        have hu : uniqueAfter prev (i :: rest) = i :: uniqueAfter i rest := by
          simp [uniqueAfter, EventCommand.eq, heq]
        rw [hu]
        have hlt : prev.m_Command < i.m_Command :=
          lt_of_le_of_ne (hprev i (List.mem_cons_self _ _)) heq
        constructor
        · simp only [List.map_cons, List.pairwise_cons]
          refine ⟨fun c hc => ?_, ih1⟩
          obtain ⟨hc1, hc2⟩ := (ih2 c).mp hc
          obtain ⟨b, hb, rfl⟩ := List.mem_map.mp hc1
          exact lt_of_le_of_ne (hi b hb) (Ne.symm hc2)
        · intro c
          simp only [List.map_cons, List.mem_cons]
          rw [ih2 c]
          constructor
          · rintro (hc | ⟨hc1, _⟩)
            · exact ⟨Or.inl hc, by rw [hc]; exact Nat.ne_of_gt hlt⟩
            · obtain ⟨b, hb, rfl⟩ := List.mem_map.mp hc1
              refine ⟨Or.inr (List.mem_map.mpr ⟨b, hb, rfl⟩), ?_⟩
              exact Nat.ne_of_gt (lt_of_lt_of_le hlt (hi b hb))
          · rintro ⟨hc | hc, _⟩
            · exact Or.inl hc
            · by_cases hci : c = i.m_Command
              · exact Or.inl hci
              · exact Or.inr ⟨hc, hci⟩

theorem unique_spec (l : List EventCommand)
    (h : l.Pairwise (fun a b => a.m_Command ≤ b.m_Command)) :
    ((unique l).map (fun i => i.m_Command)).Nodup ∧
    ∀ c, c ∈ (unique l).map (fun i => i.m_Command) ↔ c ∈ l.map (fun i => i.m_Command) := by
  cases l with
  | nil => simp [unique]
  | cons i rest =>
      obtain ⟨h1, h2⟩ := uniqueAfter_spec rest i h
      rw [List.pairwise_cons] at h
      obtain ⟨hi, _⟩ := h
      have hgt : ∀ c ∈ (uniqueAfter i rest).map (fun i => i.m_Command), i.m_Command < c := by
        intro c hc
        obtain ⟨hc1, hc2⟩ := (h2 c).mp hc
        obtain ⟨b, hb, rfl⟩ := List.mem_map.mp hc1
        exact lt_of_le_of_ne (hi b hb) (Ne.symm hc2)
      constructor
      · simp only [unique, List.map_cons, List.nodup_cons]
        refine ⟨fun hmem => absurd (hgt _ hmem) (lt_irrefl _), ?_⟩
        exact h1.imp (fun hxy => Nat.ne_of_lt hxy)
      · intro c
        simp only [unique, List.map_cons, List.mem_cons]
        rw [h2 c]
        constructor
        · rintro (hc | ⟨hc, _⟩)
          · exact Or.inl hc
          · exact Or.inr hc
        · rintro (hc | hc)
          · exact Or.inl hc
          · by_cases hci : c = i.m_Command
            · exact Or.inl hci
            · exact Or.inr ⟨hc, hci⟩

theorem sorted_by_command (l : List EventCommand) :
    (l.mergeSort (fun a b => !EventCommand.lt b a)).Pairwise
      (fun a b => a.m_Command ≤ b.m_Command) := by
  have hle : ∀ a b : EventCommand,
      ((fun a b => !EventCommand.lt b a) a b = true) ↔ a.m_Command ≤ b.m_Command := by
    intro a b
    simp [EventCommand.lt]
  have hs := @List.sorted_mergeSort EventCommand (fun a b => !EventCommand.lt b a)
    (by
      intro a b c hab hbc
      exact (hle a c).mpr (Nat.le_trans ((hle a b).mp hab) ((hle b c).mp hbc)))
    (by
      intro a b
      rcases Nat.le_total a.m_Command b.m_Command with h | h
      · exact Bool.or_eq_true_iff.mpr (Or.inl ((hle a b).mpr h))
      · exact Bool.or_eq_true_iff.mpr (Or.inr ((hle b a).mpr h))) l
  exact hs.imp (fun {a b} hab => (hle a b).mp hab)

theorem RemoveAllCommands_calls (self : ProcessObject) :
    self.RemoveAllCommands.2.Nodup ∧
    ∀ c, c ∈ self.RemoveAllCommands.2 ↔ c ∈ self.m_Commands.map (fun i => i.m_Command) := by
  obtain ⟨h1, h2⟩ := unique_spec _ (sorted_by_command self.m_Commands)
  refine ⟨h1, fun c => ?_⟩
  show c ∈ (unique _).map _ ↔ _
  rw [h2 c]
  simp only [List.mem_map]
  constructor
  · rintro ⟨i, hi, rfl⟩
    exact ⟨i, (List.mergeSort_perm _ _).mem_iff.mp hi, rfl⟩
  · rintro ⟨i, hi, rfl⟩
    exact ⟨i, (List.mergeSort_perm _ _).mem_iff.mpr hi, rfl⟩

theorem AddCommand_commands (addObserver : AddObserverMethod) (self : ProcessObject)
    (event : EventEnum) (cmd : CommandPtr) :
    ∃ tag, (self.AddCommand addObserver event cmd).self.m_Commands
      = self.m_Commands ++ [⟨event, cmd, tag⟩] := by
  unfold ProcessObject.AddCommand
  cases self.m_ActiveProcess with
  | none => exact ⟨unsignedLongMax, rfl⟩
  | some p =>
      cases hE : GetITKEventObject event with
      | error e => exact ⟨unsignedLongMax, rfl⟩
      | ok itkEvent =>
          rcases hA : addObserver p itkEvent (.SimpleAdaptorCommand cmd) with ⟨r, p1⟩
          cases r with
          | error e => simp only [hA]; exact ⟨unsignedLongMax, rfl⟩
          | ok tag => simp only [hA]; exact ⟨tag, rfl⟩

theorem addCommands_commands (addObserver : AddObserverMethod) :
    ∀ (calls : List (EventEnum × CommandPtr)) (self : ProcessObject),
      (addCommands addObserver self calls).m_Commands.map (fun i => i.m_Command)
        = self.m_Commands.map (fun i => i.m_Command) ++ calls.map Prod.snd := by
  intro calls
  induction calls with
  | nil => intro self; simp [addCommands]
  | cons ec rest ih =>
      intro self
      obtain ⟨event, cmd⟩ := ec
      obtain ⟨tag, ht⟩ := AddCommand_commands addObserver self event cmd
      simp only [addCommands]
      rw [ih, ht]
      simp

theorem AddCommand_idle (addObserver : AddObserverMethod) (self : ProcessObject)
    (event : EventEnum) (cmd : CommandPtr) (h : self.m_ActiveProcess = none) :
    self.AddCommand addObserver event cmd
      = ⟨{ self with m_Commands := self.m_Commands ++ [⟨event, cmd, unsignedLongMax⟩] }, none⟩ := by
  unfold ProcessObject.AddCommand
  rw [h]
  rfl

theorem onCommandDeleteLoop_spec (cmd : CommandPtr) :
    ∀ (l : List EventCommand) (active : Option ItkProcessObject),
      (ProcessObject.onCommandDeleteLoop cmd active l).2
          = l.filter (fun i => decide (cmd ≠ i.m_Command)) ∧
        (ProcessObject.onCommandDeleteLoop cmd active l).1.isSome = active.isSome := by
  intro l
  induction l with
  | nil => intro active; simp [ProcessObject.onCommandDeleteLoop]
  | cons i rest ih =>
      intro active
      by_cases hc : cmd = i.m_Command
      · cases active with
        | none =>
            simp only [ProcessObject.onCommandDeleteLoop, hc, if_true]
            have := ih none
            simpa [hc] using this
        | some p =>
            by_cases ht : i.m_ITKTag ≠ unsignedLongMax
            · simp only [ProcessObject.onCommandDeleteLoop, hc, if_true, ht, ne_eq,
                not_false_eq_true]
              have := ih (some (p.RemoveObserver i.m_ITKTag))
              simpa [hc] using this
            · simp only [ProcessObject.onCommandDeleteLoop, hc, if_true, ht, if_false]
              have := ih (some p)
              simpa [hc] using this
      · have := ih active
        simp only [ProcessObject.onCommandDeleteLoop, hc, if_false]
        simpa [hc] using this

theorem registerCommands_tags (addObserver : AddObserverMethod)
    (hno : ∀ p e c tag p1, addObserver p e c = (.ok tag, p1) → tag ≠ unsignedLongMax) :
    ∀ (l : List EventCommand) (p : ItkProcessObject),
      (ProcessObject.registerCommands addObserver p l).2.2 = none →
        ∀ i ∈ (ProcessObject.registerCommands addObserver p l).1, i.m_ITKTag ≠ unsignedLongMax := by
  intro l
  induction l with
  | nil => intro p _ i hi; simp [ProcessObject.registerCommands] at hi
  | cons a rest ih =>
      intro p
      unfold ProcessObject.registerCommands
      by_cases ht : a.m_ITKTag ≠ unsignedLongMax
      · simp [ht]
      · rw [if_neg ht]
        cases hE : GetITKEventObject a.m_Event with
        | error e => simp
        | ok itkEvent =>
            rcases hA : addObserver p itkEvent (.SimpleAdaptorCommand a.m_Command) with ⟨r, p1⟩
            cases r with
            | error e => simp [hA]
            | ok tag =>
                simp only [hA, List.mem_cons]
                intro hnone i hi
                rcases hi with rfl | hi
                · exact hno _ _ _ _ _ hA
                · exact ih p1 hnone i hi

theorem runIdleCalls_idle (addObserver : AddObserverMethod) :
    ∀ (calls : List IdleCall) (s : ProcessObject), s.m_ActiveProcess = none →
      (runIdleCalls addObserver s calls).m_ActiveProcess = none ∧
        (runIdleCalls addObserver s calls).m_ProgressMeasurement = s.m_ProgressMeasurement := by
  intro calls
  induction calls with
  | nil => intro s h; exact ⟨h, rfl⟩
  | cons c rest ih =>
      intro s h
      cases c with
      | addCommand event cmd =>
          simp only [runIdleCalls]
          rw [AddCommand_idle addObserver s event cmd h]
          exact ih _ h
      | removeAllCommands =>
          simp only [runIdleCalls]
          exact ih _ h
      | onCommandDelete cmd =>
          simp only [runIdleCalls]
          have hl := (onCommandDeleteLoop_spec cmd s.m_Commands s.m_ActiveProcess).2
          rw [h] at hl
          have hn : (s.onCommandDelete cmd).m_ActiveProcess = none := by
            simp only [ProcessObject.onCommandDelete, h]
            exact Option.not_isSome_iff_eq_none.mp (by rw [hl]; simp)
          exact ih _ hn

theorem step_invariant (addObserver : AddObserverMethod)
    (hno : ∀ p e c tag p1, addObserver p e c = (.ok tag, p1) → tag ≠ unsignedLongMax)
    (s : ProcessObject) (c : Call) (hs : TagInvariant s)
    (hc : (c.run addObserver s).thrown = none) : TagInvariant (c.run addObserver s).self := by
  obtain ⟨hs1, hs2⟩ := hs
  cases c with
  | addCommand event cmd =>
      simp only [Call.run] at hc ⊢
      cases hact : s.m_ActiveProcess with
      | none =>
          rw [AddCommand_idle addObserver s event cmd hact]
          refine ⟨fun h => ?_, fun _ i hi => ?_⟩
          · simp [hact] at h
          · simp only [List.mem_append, List.mem_singleton] at hi
            rcases hi with hi | rfl
            · exact hs2 hact i hi
            · rfl
      | some p =>
          unfold ProcessObject.AddCommand at hc ⊢
          rw [hact] at hc ⊢
          cases hE : GetITKEventObject event with
          | error e => simp [hE] at hc
          | ok itkEvent =>
              rcases hA : addObserver p itkEvent (.SimpleAdaptorCommand cmd) with ⟨r, p1⟩
              cases r with
              | error e => simp [hE, hA] at hc
              | ok tag =>
                  simp only [hE, hA]
                  refine ⟨fun _ i hi => ?_, fun h => ?_⟩
                  · simp only [List.mem_append, List.mem_singleton] at hi
                    rcases hi with hi | rfl
                    · exact hs1 (by simp [hact]) i hi
                    · exact hno _ _ _ _ _ hA
                  · simp at h
  | removeAllCommands =>
      refine ⟨fun _ i hi => ?_, fun _ i hi => ?_⟩ <;>
        simp [Call.run, ProcessObject.RemoveAllCommands] at hi
  | preUpdate p =>
      simp only [Call.run] at hc ⊢
      unfold ProcessObject.PreUpdate at hc ⊢
      cases hr : (ProcessObject.registerCommands addObserver
          (p.SetNumberOfThreads s.GetNumberOfThreads) s.m_Commands).2.2 with
      | some e => simp [hr] at hc
      | none =>
          simp only [hr]
          refine ⟨fun _ i hi => ?_, fun h => ?_⟩
          · exact registerCommands_tags addObserver hno _ _ hr i hi
          · simp at h
  | onActiveProcessDelete =>
      refine ⟨fun h => ?_, fun _ i hi => ?_⟩
      · simp [Call.run, ProcessObject.OnActiveProcessDelete] at h
      · simp only [Call.run, ProcessObject.OnActiveProcessDelete, List.mem_map] at hi
        obtain ⟨j, _, rfl⟩ := hi
        rfl
  | onCommandDelete cmd =>
      obtain ⟨hl1, hl2⟩ := onCommandDeleteLoop_spec cmd s.m_Commands s.m_ActiveProcess
      simp only [Call.run, ProcessObject.onCommandDelete]
      refine ⟨fun h i hi => ?_, fun h i hi => ?_⟩
      · rw [hl1] at hi
        rw [hl2] at h
        exact hs1 h i (List.mem_filter.mp hi).1
      · rw [hl1] at hi
        have h2 : (ProcessObject.onCommandDeleteLoop cmd s.m_ActiveProcess s.m_Commands).1
            = none := h
        have hn : s.m_ActiveProcess = none := by
          apply Option.not_isSome_iff_eq_none.mp
          rw [← hl2, h2]
          simp
        exact hs2 hn i (List.mem_filter.mp hi).1

theorem guardedAddObserver_tag (p : ItkProcessObject) (e : ItkEventObject) (c : ItkCommand)
    (tag : Nat) (p1 : ItkProcessObject) (h : guardedAddObserver p e c = (.ok tag, p1)) :
    tag ≠ unsignedLongMax := by
  unfold guardedAddObserver at h
  by_cases hc : p.m_Count = unsignedLongMax
  · simp [hc] at h
  · simp only [hc, if_false, ProcessObject.PreUpdateAddObserver, ItkProcessObject.AddObserver,
      Prod.mk.injEq, Except.ok.injEq] at h
    rw [← h.1]
    exact hc

/-! ## Commands of the process wrapper -/

/-- C7. For every wrapper and every list of `AddCommand` calls on it (the same callback
may be attached several times, to several event kinds): `RemoveAllCommands` leaves the
association list empty, calls `RemoveProcessObject` exactly once on each callback that
has an association and on no other, and afterwards `HasCommand` is false for every
event kind. -/
theorem removeAllCommands_unregisters_each_once (addObserver : AddObserverMethod)
    (w : ProcessObject) (calls : List (EventEnum × CommandPtr)) :
    (addCommands addObserver w calls).RemoveAllCommands.1.m_Commands = [] ∧
    (∀ c : CommandPtr,
      (addCommands addObserver w calls).RemoveAllCommands.2.count c =
        if c ∈ w.m_Commands.map (fun i => i.m_Command) ++ calls.map Prod.snd then 1 else 0) ∧
    (∀ e : EventEnum, (addCommands addObserver w calls).RemoveAllCommands.1.HasCommand e = false) := by
  obtain ⟨hnd, hmem⟩ := RemoveAllCommands_calls (addCommands addObserver w calls)
  refine ⟨rfl, fun c => ?_, fun e => rfl⟩
  rw [List.count_eq_of_nodup hnd]
  have := hmem c
  rw [addCommands_commands] at this
  by_cases hc : c ∈ w.m_Commands.map (fun i => i.m_Command) ++ calls.map Prod.snd
  · rw [if_pos hc, if_pos (this.mpr hc)]
  · rw [if_neg hc, if_neg (fun h => hc (this.mp h))]

/-- C8. On a wrapper whose active native operation is `p`, with any associations,
`OnActiveProcessDelete` leaves the wrapper without an active operation; `GetProgress`
then returns the progress that `p` had, and still does after any sequence of
`AddCommand`, `RemoveAllCommands` and `onCommandDelete` calls, which leave the wrapper
idle; every association holds the sentinel and keeps its event kind, its callback and
its place; a following `AddCommand` does not throw, appends an association that holds
the sentinel, leaves the wrapper without an active operation, and does not invoke
`PreUpdateAddObserver`: its outcome is the same whatever that member does. -/
theorem onActiveProcessDelete_contract (addObserver : AddObserverMethod)
    (self : ProcessObject) (p : ItkProcessObject) (h : self.m_ActiveProcess = some p)
    (event : EventEnum) (cmd : CommandPtr) (calls : List IdleCall) :
    self.OnActiveProcessDelete.m_ActiveProcess = none ∧
    self.OnActiveProcessDelete.GetProgress = p.GetProgress ∧
    (runIdleCalls addObserver self.OnActiveProcessDelete calls).m_ActiveProcess = none ∧
    (runIdleCalls addObserver self.OnActiveProcessDelete calls).GetProgress = p.GetProgress ∧
    self.OnActiveProcessDelete.m_Commands
      = self.m_Commands.map (fun i => ⟨i.m_Event, i.m_Command, unsignedLongMax⟩) ∧
    (self.OnActiveProcessDelete.AddCommand addObserver event cmd).thrown = none ∧
    (self.OnActiveProcessDelete.AddCommand addObserver event cmd).self.m_Commands
      = self.OnActiveProcessDelete.m_Commands ++ [⟨event, cmd, unsignedLongMax⟩] ∧
    (self.OnActiveProcessDelete.AddCommand addObserver event cmd).self.m_ActiveProcess = none ∧
    (∀ other : AddObserverMethod,
      self.OnActiveProcessDelete.AddCommand other event cmd
        = self.OnActiveProcessDelete.AddCommand addObserver event cmd) := by
  have hidle : self.OnActiveProcessDelete.m_ActiveProcess = none := rfl
  have hprog : self.OnActiveProcessDelete.m_ProgressMeasurement = p.GetProgress := by
    simp [ProcessObject.OnActiveProcessDelete, h]
  obtain ⟨hr1, hr2⟩ := runIdleCalls_idle addObserver calls _ hidle
  refine ⟨hidle, ?_, hr1, ?_, rfl, ?_, ?_, ?_, fun other => ?_⟩
  · simp only [ProcessObject.GetProgress, hidle, hprog]
  · simp only [ProcessObject.GetProgress, hr1, hr2, hprog]
  · rw [AddCommand_idle addObserver _ event cmd hidle]
  · rw [AddCommand_idle addObserver _ event cmd hidle]
  · rw [AddCommand_idle addObserver _ event cmd hidle]
    exact hidle
  · rw [AddCommand_idle addObserver _ event cmd hidle, AddCommand_idle other _ event cmd hidle]

/-- Witness of C8: the example wrapper, activated on an operation whose progress bits
are 1056964608, is idle after the deletion notice and reports that progress; its
association holds the sentinel, and so does the one that is added next. -/
theorem onActiveProcessDelete_contract_witness :
    exampleWrapperActive.m_ActiveProcess.isSome = true ∧
    exampleWrapperActive.OnActiveProcessDelete.m_ActiveProcess = none ∧
    exampleWrapperActive.OnActiveProcessDelete.GetProgress = 1056964608 ∧
    (exampleWrapperActive.OnActiveProcessDelete.AddCommand ProcessObject.PreUpdateAddObserver
      .sitkEndEvent 2).self.m_Commands
      = [⟨.sitkAnyEvent, 1, unsignedLongMax⟩, ⟨.sitkEndEvent, 2, unsignedLongMax⟩] :=
  have h := onActiveProcessDelete_contract ProcessObject.PreUpdateAddObserver
    exampleWrapperActive
    { m_NumberOfThreads := 1, m_Progress := 1056964608, m_AbortGenerateData := false,
      m_Observers := [⟨0, .AnyEvent, .SimpleAdaptorCommand 1⟩,
        ⟨1, .DeleteEvent, .OnActiveProcessDelete⟩],
      m_Count := 2 }
    (by decide) .sitkEndEvent 2 []
  ⟨by decide, h.1, h.2.1, h.2.2.2.2.2.2.1⟩

/-- C9. Assume that `PreUpdateAddObserver` never returns the sentinel as a tag. In every
state reached from a freshly constructed wrapper by `AddCommand`, `RemoveAllCommands`,
`PreUpdate`, `OnActiveProcessDelete` and `onCommandDelete` calls that return without
throwing: if an operation is active, no association holds the sentinel, and if none
is active, every association holds the sentinel. -/
theorem reachable_tag_invariant (addObserver : AddObserverMethod)
    (hno : ∀ p e c tag p1, addObserver p e c = (.ok tag, p1) → tag ≠ unsignedLongMax)
    (s : ProcessObject) (hs : Reachable addObserver s) :
    (s.m_ActiveProcess.isSome → ∀ i ∈ s.m_Commands, i.m_ITKTag ≠ unsignedLongMax) ∧
    (s.m_ActiveProcess = none → ∀ i ∈ s.m_Commands, i.m_ITKTag = unsignedLongMax) := by
  induction hs with
  | create d n =>
      refine ⟨fun _ i hi => ?_, fun _ i hi => ?_⟩ <;> simp [ProcessObject.create] at hi
  | step s c _ hc ih => exact step_invariant addObserver hno s c ih hc

/-- Witness of C9: for the class with `guardedAddObserver`, the example state is
reached, an operation is active in it, and its association holds a tag. -/
theorem reachable_tag_invariant_witness :
    Reachable guardedAddObserver exampleReached ∧
    exampleReached.m_ActiveProcess.isSome = true ∧
    (∀ i ∈ exampleReached.m_Commands, i.m_ITKTag ≠ unsignedLongMax) :=
  have hr : Reachable guardedAddObserver exampleReached :=
    Reachable.step _ (.preUpdate (exampleOperation 0))
      (Reachable.step _ (.addCommand .sitkAnyEvent 1) (Reachable.create false 1) (by decide))
      (by decide)
  ⟨hr, by decide,
    (reachable_tag_invariant guardedAddObserver guardedAddObserver_tag exampleReached hr).1
      (by decide)⟩

/-- C10 at two failing inputs. With callback 1 attached for the event kind Any and
callback 2 for an event kind without native event, `PreUpdate` subscribes the first
association (tag 0), throws at the second, and leaves the wrapper without an active
operation while the first association still holds tag 0 and the native operation still
holds the observer. On a wrapper that is active with one association, `PreUpdate`
throws because the commands are registered already, and leaves the wrapper without an
active operation while the association still holds its tag. -/
theorem preUpdate_failure_leaves_tags :
    ((exampleWrapperUnmapped.PreUpdate ProcessObject.PreUpdateAddObserver
        (exampleOperation 0)).thrown = some .unexpectedEventCase ∧
      (exampleWrapperUnmapped.PreUpdate ProcessObject.PreUpdateAddObserver
        (exampleOperation 0)).self.m_ActiveProcess = none ∧
      (exampleWrapperUnmapped.PreUpdate ProcessObject.PreUpdateAddObserver
        (exampleOperation 0)).self.m_Commands
        = [⟨.sitkAnyEvent, 1, 0⟩, ⟨.unregistered 3, 2, unsignedLongMax⟩] ∧
      (exampleWrapperUnmapped.PreUpdate ProcessObject.PreUpdateAddObserver
        (exampleOperation 0)).p.m_Observers = [⟨0, .AnyEvent, .SimpleAdaptorCommand 1⟩]) ∧
    (0 ≠ unsignedLongMax) ∧
    (exampleWrapperActive.m_ActiveProcess.isSome = true ∧
      exampleWrapperActive.m_Commands = [⟨.sitkAnyEvent, 1, 0⟩] ∧
      (exampleWrapperActive.PreUpdate ProcessObject.PreUpdateAddObserver
        (exampleOperation 0)).thrown = some .commandsAlreadyRegistered ∧
      (exampleWrapperActive.PreUpdate ProcessObject.PreUpdateAddObserver
        (exampleOperation 0)).self.m_ActiveProcess = none ∧
      (exampleWrapperActive.PreUpdate ProcessObject.PreUpdateAddObserver
        (exampleOperation 0)).self.m_Commands = [⟨.sitkAnyEvent, 1, 0⟩]) := by
  decide

/-! ## Lemmas on size, transforms and copies -/

theorem setPixelAs_getPixelAs_of_success {T : ImageType} (a : Accessor) (self : PimpleImage T)
    (idx : List Nat) (x : a.component.Value)
    (hs : (setPixelAs a self idx x).thrown = none) (hr : inRange self idx) :
    getPixelAs a (setPixelAs a self idx x).self idx = .ok x := by
  by_cases ht : a.tag = T.PixelIDType
  · obtain ⟨D, P⟩ := T
    simp only [Accessor.tag] at ht
    subst ht
    rw [setPixelAs_eq, InternalSetPixel_match] at hs ⊢
    rcases Nat.lt_or_ge idx.length D with hlt | hge
    · rw [ConvertSTLToIndex_short ⟨D, .basic a.component⟩ idx hlt] at hs
      cases hs
    · obtain ⟨index, hc, hv⟩ := ConvertSTLToIndex_long ⟨D, .basic a.component⟩ idx hge
      rw [hc]
      rw [getPixelAs_eq]
      show PimpleImage.InternalGetPixel (.basic a.component) _ idx = _
      rw [InternalGetPixel_match, hc]
      have hin : insideRegion index.val self.m_Image.m_Index.val self.m_Image.m_Size.val := by
        rw [hv]
        exact hr
      exact congrArg Except.ok (ItkImage.GetPixel_SetPixel self.m_Image index x hin)
  · rw [setPixelAs_mismatch a self idx x ht] at hs
    cases hs

theorem ImageHandle.object_update_same {T : ImageType} (h k : ImageHandle T)
    (mem : ImageMemory T) (r : Outcome (PimpleImage T)) (he : k.m_Image = h.m_Image) :
    k.object (h.update mem r).self = r.self := by
  obtain ⟨⟨img, ok⟩, thrown⟩ := r
  simp [ImageHandle.object, ImageHandle.update, he]

theorem ImageHandle.object_update_other {T : ImageType} (h k : ImageHandle T)
    (mem : ImageMemory T) (r : Outcome (PimpleImage T)) (hne : k.m_Image ≠ h.m_Image) :
    k.object (h.update mem r).self = k.object mem := by
  simp [ImageHandle.object, ImageHandle.update, Function.update_noteq hne]

theorem PimpleImage.SetOrigin_success {T : ImageType} (self : PimpleImage T) (v : List Double)
    (h : (self.SetOrigin v).thrown = none) : (self.SetOrigin v).self.GetOrigin = v := by
  by_cases hl : v.length = T.ImageDimension
  · simp [PimpleImage.SetOrigin, hl, PimpleImage.GetOrigin, ItkImage.SetOrigin,
      ItkImage.GetOrigin]
  · simp [PimpleImage.SetOrigin, hl] at h

theorem PimpleImage.SetSpacing_success {T : ImageType} (self : PimpleImage T) (v : List Double)
    (h : (self.SetSpacing v).thrown = none) : (self.SetSpacing v).self.GetSpacing = v := by
  by_cases hl : v.length = T.ImageDimension
  · simp [PimpleImage.SetSpacing, hl, PimpleImage.GetSpacing, ItkImage.SetSpacing,
      ItkImage.GetSpacing]
  · simp [PimpleImage.SetSpacing, hl] at h

/-! ## Size, transforms and copies -/

/-- C13. On every handle (its dimension `D` is 2 or 3) and for every axis `a`:
`GetSize(a)` is a total function, returns 0 when `a >= D`, and the entry `a` of
`GetSize()` when `a < D`; `GetSize()` has `D` entries. -/
theorem getSize_contract (T : ImageType) (self : PimpleImage T) (a : Nat) :
    (T.ImageDimension ≤ a → self.GetSizeOf a = 0) ∧
    (a < T.ImageDimension → self.GetSize[a]? = some (self.GetSizeOf a)) ∧
    self.GetSize.length = T.ImageDimension := by
  have hD : (T.ImageDimension + 2 ^ 32 - 1) % 2 ^ 32 = T.ImageDimension - 1 := by
    rcases self.dimension_ok with h | h <;> rw [h] <;> decide
  refine ⟨fun h => ?_, fun h => ?_, by simp [PimpleImage.GetSize]⟩
  · have hpos : 0 < T.ImageDimension := by
      rcases self.dimension_ok with h | h <;> omega
    have hgt : a > T.ImageDimension - 1 := by omega
    unfold PimpleImage.GetSizeOf
    rw [hD, if_pos hgt]
  · have hle : ¬ a > T.ImageDimension - 1 := by omega
    have hsz : a < self.m_Image.m_Size.val.length := by
      rw [self.m_Image.m_Size.property]
      exact h
    unfold PimpleImage.GetSizeOf PimpleImage.GetSize
    rw [hD, if_neg hle]
    simp [h, List.getElem?_range]

/-- C15. On a handle of dimension `D`, `TransformPhysicalPointToIndex(p)` throws its
dimension mismatch exception exactly when the length of `p` is not `D`, and
`TransformIndexToPhysicalPoint(i)` exactly when the length of `i` is not `D`; otherwise
each returns a vector, and every vector returned has `D` entries. -/
theorem transform_dimension_check (T : ImageType)
    (toIndex : ItkImage (PixelType T.PixelIDType) T.ImageDimension →
      FixedArray Double T.ImageDimension → FixedArray Int T.ImageDimension)
    (toPoint : ItkImage (PixelType T.PixelIDType) T.ImageDimension →
      FixedArray Int T.ImageDimension → FixedArray Double T.ImageDimension)
    (self : PimpleImage T) (p : List Double) (i : List Int) :
    ((self.TransformPhysicalPointToIndex toIndex p = .error .vectorDimensionMismatch
        ↔ p.length ≠ T.ImageDimension) ∧
      (p.length = T.ImageDimension → ∃ r, self.TransformPhysicalPointToIndex toIndex p = .ok r) ∧
      (∀ r, self.TransformPhysicalPointToIndex toIndex p = .ok r → r.length = T.ImageDimension)) ∧
    ((self.TransformIndexToPhysicalPoint toPoint i = .error .vectorDimensionMismatch
        ↔ i.length ≠ T.ImageDimension) ∧
      (i.length = T.ImageDimension → ∃ r, self.TransformIndexToPhysicalPoint toPoint i = .ok r) ∧
      (∀ r, self.TransformIndexToPhysicalPoint toPoint i = .ok r → r.length = T.ImageDimension)) := by
  constructor
  · by_cases h : p.length = T.ImageDimension
    · refine ⟨?_, ?_, ?_⟩
      · simp [PimpleImage.TransformPhysicalPointToIndex, h]
      · intro _
        simp [PimpleImage.TransformPhysicalPointToIndex, h]
      · intro r hr
        simp only [PimpleImage.TransformPhysicalPointToIndex, h, ne_eq, not_true_eq_false,
          dite_false, Except.ok.injEq] at hr
        rw [← hr]
        simp
    · refine ⟨?_, fun h2 => absurd h2 h, ?_⟩
      · simp [PimpleImage.TransformPhysicalPointToIndex, h]
      · intro r hr
        simp [PimpleImage.TransformPhysicalPointToIndex, h] at hr
  · by_cases h : i.length = T.ImageDimension
    · refine ⟨?_, ?_, ?_⟩
      · simp [PimpleImage.TransformIndexToPhysicalPoint, h]
      · intro _
        simp [PimpleImage.TransformIndexToPhysicalPoint, h]
      · intro r hr
        simp only [PimpleImage.TransformIndexToPhysicalPoint, h, ne_eq, not_true_eq_false,
          ite_false, Except.ok.injEq] at hr
        rw [← hr]
        exact (toPoint self.m_Image _).property
    · refine ⟨?_, fun h2 => absurd h2 h, ?_⟩
      · simp [PimpleImage.TransformIndexToPhysicalPoint, h]
      · intro r hr
        simp [PimpleImage.TransformIndexToPhysicalPoint, h] at hr

/-- C14. `DeepCopy` throws exactly when the tag of the handle is label-kind: then it
throws the exception "This method is not implemented yet" and leaves the memory, so
the storage and the geometry of the source handle, unchanged; on a handle of any other
kind it returns a new object of the same tag and dimension, whose image is a copy, at
a fresh address, of the image of the source, and the images that were alive are
unchanged. -/
theorem deepCopy_contract (T : ImageType) (h : ImageHandle T) (mem : ImageMemory T) :
    ((∃ e, (h.DeepCopy mem).2 = .error e) ↔ IsLabel T.PixelIDType = true) ∧
    (IsLabel T.PixelIDType = true →
      (h.DeepCopy mem).2 = .error .notImplementedYet ∧ (h.DeepCopy mem).1 = mem) ∧
    (IsLabel T.PixelIDType = false →
      ∃ d, (h.DeepCopy mem).2 = .ok d ∧
        (d.object (h.DeepCopy mem).1).GetPixelIDValue = (h.object mem).GetPixelIDValue ∧
        (d.object (h.DeepCopy mem).1).GetDimension = (h.object mem).GetDimension ∧
        d.m_Image = mem.next ∧
        (d.object (h.DeepCopy mem).1).m_Image = (h.object mem).m_Image ∧
        (∀ address, address < mem.next →
          (h.DeepCopy mem).1.image address = mem.image address)) := by
  by_cases hl : IsLabel T.PixelIDType = true
  · refine ⟨⟨fun _ => hl, fun _ => ⟨.notImplementedYet, ?_⟩⟩, fun _ => ⟨?_, ?_⟩, fun hf => ?_⟩
    · simp [ImageHandle.DeepCopy, hl]
    · simp [ImageHandle.DeepCopy, hl]
    · simp [ImageHandle.DeepCopy, hl]
    · rw [hl] at hf
      cases hf
  · have hf : IsLabel T.PixelIDType = false := by simpa using hl
    refine ⟨⟨fun ⟨e, he⟩ => ?_, fun ht => absurd ht hl⟩, fun ht => absurd ht hl, fun _ => ?_⟩
    · simp [ImageHandle.DeepCopy, hf, ImageHandle.create] at he
    · refine ⟨⟨mem.next, h.dimension_ok⟩, ?_, rfl, rfl, rfl, ?_, ?_⟩
      · simp [ImageHandle.DeepCopy, hf, ImageHandle.create]
      · simp [ImageHandle.DeepCopy, hf, ImageHandle.object]
      · intro address ha
        simp [ImageHandle.DeepCopy, hf, Function.update_noteq (Nat.ne_of_lt ha)]

/-- C16. For every handle `h` on a live image: `ShallowCopy` does not throw and returns
an object `s` that holds the same pointer, so that a `SetOrigin`, a `SetSpacing` or a
pixel write that succeeds through one of `h` and `s` is read back by `GetOrigin`,
`GetSpacing` or the pixel accessor through the other (the pixel at an index in range).
When the tag is not label-kind, `DeepCopy` returns an object `d` on another image, and
a `SetOrigin`, `SetSpacing` or pixel write through `h` leaves the object seen through
`d` as it was, and the other way round. -/
theorem copy_aliasing (T : ImageType) (h : ImageHandle T) (mem : ImageMemory T)
    (hv : h.m_Image < mem.next) (v : List Double) (a : Accessor) (idx : List Nat)
    (x : a.component.Value) :
    (∃ s, h.ShallowCopy = .ok s ∧ s.m_Image = h.m_Image ∧
      ((h.SetOrigin mem v).thrown = none → s.GetOrigin (h.SetOrigin mem v).self = v) ∧
      ((s.SetOrigin mem v).thrown = none → h.GetOrigin (s.SetOrigin mem v).self = v) ∧
      ((h.SetSpacing mem v).thrown = none → s.GetSpacing (h.SetSpacing mem v).self = v) ∧
      ((s.SetSpacing mem v).thrown = none → h.GetSpacing (s.SetSpacing mem v).self = v) ∧
      ((h.setPixelAs a mem idx x).thrown = none → inRange (h.object mem) idx →
        s.getPixelAs a (h.setPixelAs a mem idx x).self idx = .ok x) ∧
      ((s.setPixelAs a mem idx x).thrown = none → inRange (s.object mem) idx →
        h.getPixelAs a (s.setPixelAs a mem idx x).self idx = .ok x)) ∧
    (IsLabel T.PixelIDType = false →
      ∃ d, (h.DeepCopy mem).2 = .ok d ∧ d.m_Image ≠ h.m_Image ∧
        (d.object (h.DeepCopy mem).1).m_Image = (h.object mem).m_Image ∧
        h.object (h.DeepCopy mem).1 = h.object mem ∧
        d.object (h.SetOrigin (h.DeepCopy mem).1 v).self = d.object (h.DeepCopy mem).1 ∧
        d.object (h.SetSpacing (h.DeepCopy mem).1 v).self = d.object (h.DeepCopy mem).1 ∧
        d.object (h.setPixelAs a (h.DeepCopy mem).1 idx x).self = d.object (h.DeepCopy mem).1 ∧
        h.object (d.SetOrigin (h.DeepCopy mem).1 v).self = h.object (h.DeepCopy mem).1 ∧
        h.object (d.SetSpacing (h.DeepCopy mem).1 v).self = h.object (h.DeepCopy mem).1 ∧
        h.object (d.setPixelAs a (h.DeepCopy mem).1 idx x).self
          = h.object (h.DeepCopy mem).1) := by
  constructor
  · refine ⟨⟨h.m_Image, h.dimension_ok⟩, rfl, rfl, ?_, ?_, ?_, ?_, ?_, ?_⟩
    · intro hs
      simp only [ImageHandle.GetOrigin, ImageHandle.SetOrigin]
      rw [ImageHandle.object_update_same h _ mem _ rfl]
      exact PimpleImage.SetOrigin_success (h.object mem) v hs
    · intro hs
      simp only [ImageHandle.GetOrigin, ImageHandle.SetOrigin]
      rw [ImageHandle.object_update_same _ h mem _ rfl]
      exact PimpleImage.SetOrigin_success (h.object mem) v hs
    · intro hs
      simp only [ImageHandle.GetSpacing, ImageHandle.SetSpacing]
      rw [ImageHandle.object_update_same h _ mem _ rfl]
      exact PimpleImage.SetSpacing_success (h.object mem) v hs
    · intro hs
      simp only [ImageHandle.GetSpacing, ImageHandle.SetSpacing]
      rw [ImageHandle.object_update_same _ h mem _ rfl]
      exact PimpleImage.SetSpacing_success (h.object mem) v hs
    · intro hs hr
      simp only [ImageHandle.getPixelAs, ImageHandle.setPixelAs]
      rw [ImageHandle.object_update_same h _ mem _ rfl]
      exact setPixelAs_getPixelAs_of_success a (h.object mem) idx x hs hr
    · intro hs hr
      simp only [ImageHandle.getPixelAs, ImageHandle.setPixelAs]
      rw [ImageHandle.object_update_same _ h mem _ rfl]
      exact setPixelAs_getPixelAs_of_success a (h.object mem) idx x hs hr
  · intro hf
    have hne : mem.next ≠ h.m_Image := Nat.ne_of_gt hv
    have hd : (h.DeepCopy mem).2 = .ok ⟨mem.next, h.dimension_ok⟩ := by
      simp [ImageHandle.DeepCopy, hf, ImageHandle.create]
    refine ⟨⟨mem.next, h.dimension_ok⟩, hd, hne, ?_, ?_, ?_, ?_, ?_, ?_, ?_, ?_⟩
    · simp [ImageHandle.DeepCopy, hf, ImageHandle.object]
    · simp [ImageHandle.DeepCopy, hf, ImageHandle.object, Function.update_noteq hne.symm]
    · exact ImageHandle.object_update_other h ⟨mem.next, h.dimension_ok⟩ _ _ hne
    · exact ImageHandle.object_update_other h ⟨mem.next, h.dimension_ok⟩ _ _ hne
    · exact ImageHandle.object_update_other h ⟨mem.next, h.dimension_ok⟩ _ _ hne
    · exact ImageHandle.object_update_other ⟨mem.next, h.dimension_ok⟩ h _ _ hne.symm
    · exact ImageHandle.object_update_other ⟨mem.next, h.dimension_ok⟩ h _ _ hne.symm
    · exact ImageHandle.object_update_other ⟨mem.next, h.dimension_ok⟩ h _ _ hne.symm

/-- Witness of C16: on the example memory, the origin set through the handle is read
back through its shallow copy, and not through its deep copy. -/
theorem copy_aliasing_witness :
    (∃ s, exampleHandle.ShallowCopy = .ok s ∧
      s.GetOrigin (exampleHandle.SetOrigin exampleMemory [5, 6]).self = [5, 6]) ∧
    (∃ d, (exampleHandle.DeepCopy exampleMemory).2 = .ok d ∧
      d.GetOrigin (exampleHandle.SetOrigin (exampleHandle.DeepCopy exampleMemory).1 [5, 6]).self
        = [0, 0]) :=
  have hw := copy_aliasing ⟨2, .basic .uint16⟩ exampleHandle exampleMemory (by decide)
    [5, 6] .UInt16 [0, 0] (7 : Bits 16)
  ⟨⟨hw.1.choose, hw.1.choose_spec.1, hw.1.choose_spec.2.2.1 (by decide)⟩,
    ⟨(hw.2 rfl).choose, (hw.2 rfl).choose_spec.1, by
      have h5 := (hw.2 rfl).choose_spec.2.2.2.2.1
      show PimpleImage.GetOrigin _ = _
      rw [h5]
      have h3 := (hw.2 rfl).choose_spec.2.2.1
      show (ImageHandle.object _ _).m_Image.GetOrigin.val = _
      rw [h3]
      rfl⟩⟩

/-! ## Lemmas on the calls made on the native operation -/

theorem Evolves.refl (p : ItkProcessObject) : Evolves p p := ⟨[], rfl⟩

theorem Evolves.trans {p q r : ItkProcessObject} (h1 : Evolves p q) (h2 : Evolves q r) :
    Evolves p r := by
  obtain ⟨c1, rfl⟩ := h1
  obtain ⟨c2, rfl⟩ := h2
  exact ⟨c1 ++ c2, by simp [List.foldl_append]⟩

theorem Evolves.step (p : ItkProcessObject) (c : NativeCall) : Evolves p (c.run p) :=
  ⟨[c], rfl⟩

theorem PreUpdateAddObserver_evolves (p : ItkProcessObject) (e : ItkEventObject)
    (c : ItkCommand) : Evolves p (ProcessObject.PreUpdateAddObserver p e c).2 :=
  Evolves.step p (.AddObserver e c)

theorem registerCommands_evolves (addObserver : AddObserverMethod)
    (hov : ∀ p e c, Evolves p (addObserver p e c).2) :
    ∀ (l : List EventCommand) (p : ItkProcessObject),
      Evolves p (ProcessObject.registerCommands addObserver p l).2.1 := by
  intro l
  induction l with
  | nil => intro p; exact Evolves.refl p
  | cons a rest ih =>
      intro p
      unfold ProcessObject.registerCommands
      by_cases ht : a.m_ITKTag ≠ unsignedLongMax
      · rw [if_pos ht]
        exact Evolves.refl p
      · rw [if_neg ht]
        cases hE : GetITKEventObject a.m_Event with
        | error e => exact Evolves.refl p
        | ok itkEvent =>
            have h1 := hov p itkEvent (.SimpleAdaptorCommand a.m_Command)
            rcases hA : addObserver p itkEvent (.SimpleAdaptorCommand a.m_Command) with ⟨r, p1⟩
            rw [hA] at h1
            cases r with
            | error e => simpa [hA] using h1
            | ok tag =>
                simp only [hA]
                exact Evolves.trans h1 (ih p1)

theorem onCommandDeleteLoop_evolves (cmd : CommandPtr) :
    ∀ (l : List EventCommand) (p : ItkProcessObject),
      ∃ q, (ProcessObject.onCommandDeleteLoop cmd (some p) l).1 = some q ∧ Evolves p q := by
  intro l
  induction l with
  | nil => intro p; exact ⟨p, rfl, Evolves.refl p⟩
  | cons i rest ih =>
      intro p
      by_cases hc : cmd = i.m_Command
      · by_cases ht : i.m_ITKTag ≠ unsignedLongMax
        · obtain ⟨q, hq, he⟩ := ih (p.RemoveObserver i.m_ITKTag)
          refine ⟨q, ?_, Evolves.trans (Evolves.step p (.RemoveObserver i.m_ITKTag)) he⟩
          simp only [ProcessObject.onCommandDeleteLoop, hc, if_true, ht, ne_eq,
            not_false_eq_true]
          simpa [hc] using hq
        · obtain ⟨q, hq, he⟩ := ih p
          refine ⟨q, ?_, he⟩
          simp only [ProcessObject.onCommandDeleteLoop, hc, if_true, ht, if_false]
          simpa [hc] using hq
      · obtain ⟨q, hq, he⟩ := ih p
        refine ⟨q, ?_, he⟩
        simp only [ProcessObject.onCommandDeleteLoop, hc, if_false]
        exact hq

theorem onCommandDeleteLoop_observers (cmd : CommandPtr) :
    ∀ (l : List EventCommand) (p : ItkProcessObject),
      (ProcessObject.onCommandDeleteLoop cmd (some p) l).1
        = some { p with
            m_Observers := p.m_Observers.filter
              (fun o => decide (o.m_Tag ∉ removedTags cmd l)) } := by
  intro l
  induction l with
  | nil => intro p; simp [ProcessObject.onCommandDeleteLoop, removedTags]
  | cons i rest ih =>
      intro p
      by_cases hc : cmd = i.m_Command
      · by_cases ht : i.m_ITKTag ≠ unsignedLongMax
        · have h1 := ih (p.RemoveObserver i.m_ITKTag)
          have h2 : removedTags cmd (i :: rest) = i.m_ITKTag :: removedTags cmd rest := by
            simp [removedTags, hc, ht]
          have h3 : ProcessObject.onCommandDeleteLoop cmd (some p) (i :: rest)
              = ProcessObject.onCommandDeleteLoop cmd (some (p.RemoveObserver i.m_ITKTag)) rest := by
            simp [ProcessObject.onCommandDeleteLoop, hc, ht]
          rw [h3, h2, h1]
          simp only [ItkProcessObject.RemoveObserver, List.filter_filter, List.mem_cons, not_or]
          congr 2
          apply List.filter_congr
          intro o _
          by_cases ho : o.m_Tag = i.m_ITKTag <;> simp [ho]
        · have h1 := ih p
          have h2 : removedTags cmd (i :: rest) = removedTags cmd rest := by
            simp [removedTags, hc, ht]
          have h3 : ProcessObject.onCommandDeleteLoop cmd (some p) (i :: rest)
              = ProcessObject.onCommandDeleteLoop cmd (some p) rest := by
            simp [ProcessObject.onCommandDeleteLoop, hc, ht]
          rw [h3, h2, h1]
      · have h1 := ih p
        have h2 : removedTags cmd (i :: rest) = removedTags cmd rest := by
          simp [removedTags, hc]
        simp only [ProcessObject.onCommandDeleteLoop, hc, if_false]
        rw [h2]
        exact h1

theorem onCommandDeleteLoop_none (cmd : CommandPtr) :
    ∀ (l : List EventCommand), (ProcessObject.onCommandDeleteLoop cmd none l).1 = none := by
  intro l
  induction l with
  | nil => rfl
  | cons i rest ih =>
      by_cases hc : cmd = i.m_Command
      · simp only [ProcessObject.onCommandDeleteLoop, hc, if_true]
        simpa [hc] using ih
      · simp only [ProcessObject.onCommandDeleteLoop, hc, if_false]
        exact ih

theorem registerCommands_cons_tagged (addObserver : AddObserverMethod) (p : ItkProcessObject)
    (a : EventCommand) (rest : List EventCommand) (ht : a.m_ITKTag ≠ unsignedLongMax) :
    ProcessObject.registerCommands addObserver p (a :: rest)
      = (a :: rest, p, some .commandsAlreadyRegistered) := by
  rw [ProcessObject.registerCommands]
  simp [ht]

theorem registerCommands_cons_unmapped (addObserver : AddObserverMethod) (p : ItkProcessObject)
    (a : EventCommand) (rest : List EventCommand) (e : Exception)
    (ht : a.m_ITKTag = unsignedLongMax) (hE : GetITKEventObject a.m_Event = .error e) :
    ProcessObject.registerCommands addObserver p (a :: rest) = (a :: rest, p, some e) := by
  rw [ProcessObject.registerCommands]
  simp [ht, hE]

theorem registerCommands_cons_refused (addObserver : AddObserverMethod) (p p1 : ItkProcessObject)
    (a : EventCommand) (rest : List EventCommand) (itkEvent : ItkEventObject) (e : Exception)
    (ht : a.m_ITKTag = unsignedLongMax) (hE : GetITKEventObject a.m_Event = .ok itkEvent)
    (hA : addObserver p itkEvent (.SimpleAdaptorCommand a.m_Command) = (.error e, p1)) :
    ProcessObject.registerCommands addObserver p (a :: rest) = (a :: rest, p1, some e) := by
  rw [ProcessObject.registerCommands]
  simp [ht, hE, hA]

theorem registerCommands_cons_ok (addObserver : AddObserverMethod) (p p1 : ItkProcessObject)
    (a : EventCommand) (rest : List EventCommand) (itkEvent : ItkEventObject) (tag : Nat)
    (ht : a.m_ITKTag = unsignedLongMax) (hE : GetITKEventObject a.m_Event = .ok itkEvent)
    (hA : addObserver p itkEvent (.SimpleAdaptorCommand a.m_Command) = (.ok tag, p1)) :
    ProcessObject.registerCommands addObserver p (a :: rest)
      = ({ a with m_ITKTag := tag } :: (ProcessObject.registerCommands addObserver p1 rest).1,
          (ProcessObject.registerCommands addObserver p1 rest).2) := by
  rw [ProcessObject.registerCommands]
  simp [ht, hE, hA]

theorem registerCommands_append (addObserver : AddObserverMethod) :
    ∀ (l1 l2 : List EventCommand) (p : ItkProcessObject),
      (ProcessObject.registerCommands addObserver p l1).2.2 = none →
        ProcessObject.registerCommands addObserver p (l1 ++ l2)
          = ((ProcessObject.registerCommands addObserver p l1).1
              ++ (ProcessObject.registerCommands addObserver
                  (ProcessObject.registerCommands addObserver p l1).2.1 l2).1,
            (ProcessObject.registerCommands addObserver
              (ProcessObject.registerCommands addObserver p l1).2.1 l2).2) := by
  intro l1
  induction l1 with
  | nil => intro l2 p _; simp [ProcessObject.registerCommands]
  | cons a rest ih =>
      intro l2 p
      simp only [List.cons_append]
      by_cases ht : a.m_ITKTag = unsignedLongMax
      · cases hE : GetITKEventObject a.m_Event with
        | error e =>
            rw [registerCommands_cons_unmapped addObserver p a rest e ht hE]
            intro h
            cases h
        | ok itkEvent =>
            rcases hA : addObserver p itkEvent (.SimpleAdaptorCommand a.m_Command) with ⟨r, p1⟩
            cases r with
            | error e =>
                rw [registerCommands_cons_refused addObserver p p1 a rest itkEvent e ht hE hA]
                intro h
                cases h
            | ok tag =>
                rw [registerCommands_cons_ok addObserver p p1 a rest itkEvent tag ht hE hA,
                  registerCommands_cons_ok addObserver p p1 a (rest ++ l2) itkEvent tag ht hE hA]
                intro hnone
                rw [ih l2 p1 hnone]
                rfl
      · rw [registerCommands_cons_tagged addObserver p a rest ht]
        intro h
        cases h

theorem registerCommands_base :
    ∀ (l : List EventCommand) (p : ItkProcessObject),
      (∀ i ∈ l, i.m_ITKTag = unsignedLongMax) →
      (∀ i ∈ l, ∃ e, GetITKEventObject i.m_Event = .ok e) →
        (ProcessObject.registerCommands ProcessObject.PreUpdateAddObserver p l).2.2 = none ∧
        (ProcessObject.registerCommands ProcessObject.PreUpdateAddObserver p l).1.map
            (fun i => (i.m_Event, i.m_Command)) = l.map (fun i => (i.m_Event, i.m_Command)) ∧
        (ProcessObject.registerCommands ProcessObject.PreUpdateAddObserver p l).2.1.m_Observers
          = p.m_Observers
            ++ (ProcessObject.registerCommands ProcessObject.PreUpdateAddObserver p l).1.filterMap
              bridgingObserver ∧
        ((ProcessObject.registerCommands ProcessObject.PreUpdateAddObserver p l).1.filterMap
          bridgingObserver).length = l.length ∧
        (ProcessObject.registerCommands ProcessObject.PreUpdateAddObserver p l).2.1.m_NumberOfThreads
          = p.m_NumberOfThreads ∧
        (ProcessObject.registerCommands ProcessObject.PreUpdateAddObserver p l).2.1.m_Progress
          = p.m_Progress ∧
        (ProcessObject.registerCommands ProcessObject.PreUpdateAddObserver p l).2.1.m_AbortGenerateData
          = p.m_AbortGenerateData := by
  intro l
  induction l with
  | nil => intro p _ _; simp [ProcessObject.registerCommands]
  | cons a rest ih =>
      intro p hs hr
      have ha : a.m_ITKTag = unsignedLongMax := hs a (List.mem_cons_self _ _)
      obtain ⟨e, he⟩ := hr a (List.mem_cons_self _ _)
      obtain ⟨h1, h2, h3, h4, h5, h6, h7⟩ :=
        ih (p.AddObserver e (.SimpleAdaptorCommand a.m_Command)).2
          (fun i hi => hs i (List.mem_cons_of_mem _ hi))
          (fun i hi => hr i (List.mem_cons_of_mem _ hi))
      have hb : bridgingObserver { a with m_ITKTag := p.m_Count }
          = some ⟨p.m_Count, e, .SimpleAdaptorCommand a.m_Command⟩ := by
        simp [bridgingObserver, he]
      have hu : ProcessObject.registerCommands ProcessObject.PreUpdateAddObserver p (a :: rest)
          = ({ a with m_ITKTag := p.m_Count } ::
              (ProcessObject.registerCommands ProcessObject.PreUpdateAddObserver
                (p.AddObserver e (.SimpleAdaptorCommand a.m_Command)).2 rest).1,
            (ProcessObject.registerCommands ProcessObject.PreUpdateAddObserver
              (p.AddObserver e (.SimpleAdaptorCommand a.m_Command)).2 rest).2) := by
        rw [ProcessObject.registerCommands]
        simp [ha, he, ProcessObject.PreUpdateAddObserver, ItkProcessObject.AddObserver]
      rw [hu]
      refine ⟨h1, ?_, ?_, ?_, ?_, ?_, ?_⟩
      · simp only [List.map_cons, h2]
      · simp only [List.filterMap_cons, hb, h3]
        simp [ItkProcessObject.AddObserver]
      · simp only [List.filterMap_cons, hb, List.length_cons, h4]
      · rw [h5]; rfl
      · rw [h6]; rfl
      · rw [h7]; rfl

theorem step_activation (addObserver : AddObserverMethod)
    (hov : ∀ p e c, Evolves p (addObserver p e c).2) (s : ProcessObject)
    (last : Option ItkProcessObject) (c : WrapperCall)
    (h : ∀ q, s.m_ActiveProcess = some q → ∃ p, last = some p ∧ Evolves p q) :
    ∀ q, (c.run addObserver s).m_ActiveProcess = some q →
      ∃ p, activationAfter addObserver s last c = some p ∧ Evolves p q := by
  intro q hq
  cases c with
  | abort =>
      simp only [WrapperCall.run, ProcessObject.Abort] at hq
      cases hact : s.m_ActiveProcess with
      | none => simp [hact] at hq
      | some p0 =>
          simp only [hact, Option.some.injEq] at hq
          obtain ⟨p, hp, he⟩ := h p0 hact
          refine ⟨p, hp, ?_⟩
          rw [← hq]
          exact Evolves.trans he (Evolves.step p0 .AbortGenerateDataOn)
  | call c =>
      cases c with
      | addCommand event cmd =>
          simp only [WrapperCall.run, Call.run] at hq
          show ∃ p, last = some p ∧ Evolves p q
          cases hact : s.m_ActiveProcess with
          | none =>
              rw [AddCommand_idle addObserver s event cmd hact] at hq
              simp [hact] at hq
          | some p0 =>
              obtain ⟨p, hp, he⟩ := h p0 hact
              refine ⟨p, hp, ?_⟩
              unfold ProcessObject.AddCommand at hq
              rw [hact] at hq
              cases hE : GetITKEventObject event with
              | error e =>
                  simp only [hE, hact, Option.some.injEq] at hq
                  rw [← hq]
                  exact he
              | ok itkEvent =>
                  have h1 := hov p0 itkEvent (.SimpleAdaptorCommand cmd)
                  rcases hA : addObserver p0 itkEvent (.SimpleAdaptorCommand cmd) with ⟨r, p1⟩
                  rw [hA] at h1
                  cases r with
                  | error e =>
                      simp only [hE, hA, Option.some.injEq] at hq
                      rw [← hq]
                      exact Evolves.trans he h1
                  | ok tag =>
                      simp only [hE, hA, Option.some.injEq] at hq
                      rw [← hq]
                      exact Evolves.trans he h1
      | removeAllCommands =>
          exact h q hq
      | preUpdate p =>
          simp only [WrapperCall.run, Call.run] at hq
          simp only [activationAfter]
          unfold ProcessObject.PreUpdate at hq ⊢
          cases hr : (ProcessObject.registerCommands addObserver
              (p.SetNumberOfThreads s.GetNumberOfThreads) s.m_Commands).2.2 with
          | some e => simp [hr] at hq
          | none =>
              simp only [hr, Option.some.injEq] at hq
              simp only [hr, if_true]
              refine ⟨p, rfl, ?_⟩
              rw [← hq]
              exact Evolves.trans (Evolves.step p (.SetNumberOfThreads s.GetNumberOfThreads))
                (Evolves.trans (registerCommands_evolves addObserver hov _ _)
                  (Evolves.step _ (.AddObserver .DeleteEvent .OnActiveProcessDelete)))
      | onActiveProcessDelete =>
          simp [WrapperCall.run, Call.run, ProcessObject.OnActiveProcessDelete] at hq
      | onCommandDelete cmd =>
          simp only [WrapperCall.run, Call.run, ProcessObject.onCommandDelete] at hq
          show ∃ p, last = some p ∧ Evolves p q
          cases hact : s.m_ActiveProcess with
          | none =>
              rw [hact, onCommandDeleteLoop_none] at hq
              cases hq
          | some p0 =>
              obtain ⟨p, hp, he⟩ := h p0 hact
              obtain ⟨q1, hq1, he1⟩ := onCommandDeleteLoop_evolves cmd s.m_Commands p0
              rw [hact, hq1, Option.some.injEq] at hq
              refine ⟨p, hp, ?_⟩
              rw [← hq]
              exact Evolves.trans he he1

theorem runCalls_activation (addObserver : AddObserverMethod)
    (hov : ∀ p e c, Evolves p (addObserver p e c).2) :
    ∀ (calls : List WrapperCall) (s : ProcessObject) (last : Option ItkProcessObject),
      (∀ q, s.m_ActiveProcess = some q → ∃ p, last = some p ∧ Evolves p q) →
      ∀ q, (runCalls addObserver s calls).m_ActiveProcess = some q →
        ∃ p, lastActivation addObserver s last calls = some p ∧ Evolves p q := by
  intro calls
  induction calls with
  | nil => intro s last h q hq; exact h q hq
  | cons c rest ih =>
      intro s last h q hq
      exact ih _ _ (step_activation addObserver hov s last c h) q hq

/-! ## Removal of commands -/

/-- C11 at a failing input. On the example wrapper, which is active with the
association of callback 1 subscribed under tag 0, `RemoveAllCommands` empties the
association list and leaves the active native operation as it is: the operation still
holds the bridging observer of callback 1. On every wrapper, `RemoveAllCommands` leaves
the active native operation untouched. -/
theorem removeAllCommands_keeps_observers :
    exampleWrapperActive.m_Commands = [⟨.sitkAnyEvent, 1, 0⟩] ∧
    exampleWrapperActive.RemoveAllCommands.1.m_Commands = [] ∧
    exampleWrapperActive.RemoveAllCommands.1.m_ActiveProcess
      = some
        { m_NumberOfThreads := 1
          m_Progress := 1056964608
          m_AbortGenerateData := false
          m_Observers := [⟨0, .AnyEvent, .SimpleAdaptorCommand 1⟩,
            ⟨1, .DeleteEvent, .OnActiveProcessDelete⟩]
          m_Count := 2 } ∧
    (∀ self : ProcessObject, self.RemoveAllCommands.1.m_ActiveProcess = self.m_ActiveProcess) := by
  refine ⟨by decide, rfl, by decide, fun _ => rfl⟩

/-- C12. For every wrapper and every callback `cmd`, `onCommandDelete(cmd)` is a total
function that removes exactly the associations whose callback is `cmd` and keeps the
others as they are and in their order; when an operation is active, it removes from
that operation exactly the observers whose tag is a subscription handle (a tag other
than the sentinel) held by a removed association, and changes nothing else of the
operation; when none is active, none is afterwards. The other members of the wrapper
are unchanged. -/
theorem onCommandDelete_contract (self : ProcessObject) (cmd : CommandPtr) :
    (self.onCommandDelete cmd).m_Commands
      = self.m_Commands.filter (fun i => decide (i.m_Command ≠ cmd)) ∧
    (self.onCommandDelete cmd).m_ActiveProcess
      = self.m_ActiveProcess.map (fun p =>
          { p with
            m_Observers := p.m_Observers.filter
              (fun o => decide (o.m_Tag ∉ removedTags cmd self.m_Commands)) }) ∧
    (self.onCommandDelete cmd).m_Debug = self.m_Debug ∧
    (self.onCommandDelete cmd).m_NumberOfThreads = self.m_NumberOfThreads ∧
    (self.onCommandDelete cmd).m_ProgressMeasurement = self.m_ProgressMeasurement := by
  refine ⟨?_, ?_, rfl, rfl, rfl⟩
  · show (ProcessObject.onCommandDeleteLoop cmd self.m_ActiveProcess self.m_Commands).2 = _
    rw [(onCommandDeleteLoop_spec cmd self.m_Commands self.m_ActiveProcess).1]
    apply List.filter_congr
    intro i _
    by_cases hc : cmd = i.m_Command
    · simp [hc]
    · simp [hc, Ne.symm hc]
  · show (ProcessObject.onCommandDeleteLoop cmd self.m_ActiveProcess self.m_Commands).1 = _
    cases hact : self.m_ActiveProcess with
    | none => rw [onCommandDeleteLoop_none]; rfl
    | some p => rw [onCommandDeleteLoop_observers]; rfl

/-! ## Activation -/

/-- C17. Assume that `PreUpdateAddObserver` leaves the native operation that it is
given as the same object (in a later state). After every sequence of calls on a wrapper
that starts without an active operation: `GetActiveProcess` throws "No active process"
exactly when no operation is active, and otherwise returns the active operation, which
is the operation passed to the most recent `PreUpdate` that returned without throwing,
in the state that the member calls made on it since have left it; right after a
`PreUpdate` that returns, it returns the operation as that call leaves it. `Abort` on a
wrapper without an active operation returns the wrapper unchanged, so that no native
operation is touched. -/
theorem getActiveProcess_contract (addObserver : AddObserverMethod)
    (hov : ∀ p e c, Evolves p (addObserver p e c).2)
    (s0 : ProcessObject) (h0 : s0.m_ActiveProcess = none) (calls : List WrapperCall)
    (name : String) :
    ((runCalls addObserver s0 calls).GetActiveProcess name = .error (.noActiveProcess name)
      ↔ (runCalls addObserver s0 calls).m_ActiveProcess = none) ∧
    (∀ q, (runCalls addObserver s0 calls).GetActiveProcess name = .ok q
      ↔ (runCalls addObserver s0 calls).m_ActiveProcess = some q) ∧
    (∀ q, (runCalls addObserver s0 calls).GetActiveProcess name = .ok q →
      ∃ p, lastActivation addObserver s0 none calls = some p ∧ Evolves p q) ∧
    (∀ p, ((runCalls addObserver s0 calls).PreUpdate addObserver p).thrown = none →
      ((runCalls addObserver s0 calls).PreUpdate addObserver p).self.GetActiveProcess name
        = .ok ((runCalls addObserver s0 calls).PreUpdate addObserver p).p) ∧
    ((runCalls addObserver s0 calls).m_ActiveProcess = none →
      (runCalls addObserver s0 calls).Abort = runCalls addObserver s0 calls) := by
  have hget : ∀ q, (runCalls addObserver s0 calls).GetActiveProcess name = .ok q
      ↔ (runCalls addObserver s0 calls).m_ActiveProcess = some q := by
    intro q
    unfold ProcessObject.GetActiveProcess
    cases (runCalls addObserver s0 calls).m_ActiveProcess <;> simp
  refine ⟨?_, hget, fun q hq => ?_, fun p hp => ?_, fun h => ?_⟩
  · unfold ProcessObject.GetActiveProcess
    cases (runCalls addObserver s0 calls).m_ActiveProcess <;> simp
  · exact runCalls_activation addObserver hov calls s0 none
      (fun q hq0 => by rw [h0] at hq0; cases hq0) q ((hget q).mp hq)
  · unfold ProcessObject.PreUpdate at hp ⊢
    cases hr : (ProcessObject.registerCommands addObserver
        (p.SetNumberOfThreads (runCalls addObserver s0 calls).GetNumberOfThreads)
        (runCalls addObserver s0 calls).m_Commands).2.2 with
    | some e => simp [hr] at hp
    | none => simp [hr, ProcessObject.GetActiveProcess]
  · unfold ProcessObject.Abort
    rw [h]

/-- Witness of C17: a fresh wrapper of the base class, after callback 1 is attached,
the wrapper is activated on the example operation, callback 2 is attached and `Abort`
is called, returns as its active operation one that comes from the example operation
by member calls. -/
theorem getActiveProcess_contract_witness :
    ∃ q, (runCalls ProcessObject.PreUpdateAddObserver (ProcessObject.create false 1)
        [.call (.addCommand .sitkAnyEvent 1), .call (.preUpdate (exampleOperation 0)),
          .call (.addCommand .sitkEndEvent 2), .abort]).GetActiveProcess "filter" = .ok q ∧
      Evolves (exampleOperation 0) q :=
  have hw := getActiveProcess_contract ProcessObject.PreUpdateAddObserver
    PreUpdateAddObserver_evolves (ProcessObject.create false 1) rfl
    [.call (.addCommand .sitkAnyEvent 1), .call (.preUpdate (exampleOperation 0)),
      .call (.addCommand .sitkEndEvent 2), .abort] "filter"
  have hq : (runCalls ProcessObject.PreUpdateAddObserver (ProcessObject.create false 1)
      [.call (.addCommand .sitkAnyEvent 1), .call (.preUpdate (exampleOperation 0)),
        .call (.addCommand .sitkEndEvent 2), .abort]).GetActiveProcess "filter"
      = .ok
        { m_NumberOfThreads := 1
          m_Progress := 0
          m_AbortGenerateData := true
          m_Observers := [⟨0, .AnyEvent, .SimpleAdaptorCommand 1⟩,
            ⟨1, .DeleteEvent, .OnActiveProcessDelete⟩, ⟨2, .EndEvent, .SimpleAdaptorCommand 2⟩]
          m_Count := 3 } := by
    rfl
  ⟨_, hq, by
    obtain ⟨p, hp, he⟩ := hw.2.2.1 _ hq
    have hp2 : p = exampleOperation 0 := by
      have : lastActivation ProcessObject.PreUpdateAddObserver (ProcessObject.create false 1) none
          [.call (.addCommand .sitkAnyEvent 1), .call (.preUpdate (exampleOperation 0)),
            .call (.addCommand .sitkEndEvent 2), .abort] = some (exampleOperation 0) := by
        rfl
      rw [this] at hp
      exact (Option.some.inj hp).symm
    rw [← hp2]
    exact he⟩

/-- C18, as stated, fails on a wrapper without an active operation: there `AddCommand`
with an event kind that has no native event does not throw. -/
theorem addCommand_idle_counterexample :
    (ProcessObject.create false 1).m_ActiveProcess = none ∧
    GetITKEventObject (.unregistered 3) = .error .unexpectedEventCase ∧
    ((ProcessObject.create false 1).AddCommand ProcessObject.PreUpdateAddObserver
      (.unregistered 3) 1).thrown = none ∧
    ((ProcessObject.create false 1).AddCommand ProcessObject.PreUpdateAddObserver
      (.unregistered 3) 1).self.m_Commands = [⟨.unregistered 3, 1, unsignedLongMax⟩] :=
  ⟨rfl, rfl, rfl, rfl⟩

/-- C18, amended. For every callback: on a wrapper with an active operation,
`AddCommand` with an event kind that has no native event throws "LogicError:
Unexpected event case!"; on a wrapper without an active operation `AddCommand` does not
translate the event kind and does not throw, whatever the event kind; for each of the
eight registered event kinds the translation succeeds and `AddCommand` (of the base
class) does not throw, in either state. -/
theorem addCommand_event_translation (addObserver : AddObserverMethod) (self : ProcessObject)
    (cmd : CommandPtr) :
    (∀ value, self.m_ActiveProcess.isSome = true →
      (self.AddCommand addObserver (.unregistered value) cmd).thrown
        = some .unexpectedEventCase) ∧
    (∀ event, self.m_ActiveProcess = none →
      (self.AddCommand addObserver event cmd).thrown = none) ∧
    (∀ event, (∀ value, event ≠ .unregistered value) →
      (∃ itkEvent, GetITKEventObject event = .ok itkEvent) ∧
      (self.AddCommand ProcessObject.PreUpdateAddObserver event cmd).thrown = none) := by
  refine ⟨fun value h => ?_, fun event h => ?_, fun event h => ?_⟩
  · cases hact : self.m_ActiveProcess with
    | none => simp [hact] at h
    | some p => simp [ProcessObject.AddCommand, hact, GetITKEventObject]
  · rw [AddCommand_idle addObserver self event cmd h]
  · have hE : ∃ itkEvent, GetITKEventObject event = .ok itkEvent := by
      cases event with
      | unregistered value => exact absurd rfl (h value)
      | _ => exact ⟨_, rfl⟩
    refine ⟨hE, ?_⟩
    obtain ⟨itkEvent, hE⟩ := hE
    cases hact : self.m_ActiveProcess with
    | none => rw [AddCommand_idle _ self event cmd hact]
    | some p =>
        simp [ProcessObject.AddCommand, hact, hE, ProcessObject.PreUpdateAddObserver]

/-- C19. For every wrapper (of the base class) whose associations all hold the sentinel
and have registered event kinds, in particular an idle one, and every native operation
`p`: `PreUpdate(p)` does not throw, hands the thread count of the wrapper to `p`, makes
`p` the active operation, adds to `p`, after the observers it had, one bridging
observer for each association, in the order of the list, for the native event of its
event kind and its callback, under the tag that the association then holds, and after
them one observer of the deletion event; the event kinds, callbacks and order of the
associations are unchanged, and so are the progress and the abort flag of `p`. -/
theorem preUpdate_subscribes (self : ProcessObject) (p : ItkProcessObject)
    (hs : ∀ i ∈ self.m_Commands, i.m_ITKTag = unsignedLongMax)
    (hr : ∀ i ∈ self.m_Commands, ∃ e, GetITKEventObject i.m_Event = .ok e) :
    (self.PreUpdate ProcessObject.PreUpdateAddObserver p).thrown = none ∧
    (self.PreUpdate ProcessObject.PreUpdateAddObserver p).self.m_ActiveProcess
      = some (self.PreUpdate ProcessObject.PreUpdateAddObserver p).p ∧
    (self.PreUpdate ProcessObject.PreUpdateAddObserver p).p.m_NumberOfThreads
      = self.GetNumberOfThreads ∧
    (self.PreUpdate ProcessObject.PreUpdateAddObserver p).p.m_Progress = p.m_Progress ∧
    (self.PreUpdate ProcessObject.PreUpdateAddObserver p).p.m_AbortGenerateData
      = p.m_AbortGenerateData ∧
    (self.PreUpdate ProcessObject.PreUpdateAddObserver p).self.m_Commands.map
        (fun i => (i.m_Event, i.m_Command))
      = self.m_Commands.map (fun i => (i.m_Event, i.m_Command)) ∧
    ((self.PreUpdate ProcessObject.PreUpdateAddObserver p).self.m_Commands.filterMap
      bridgingObserver).length = self.m_Commands.length ∧
    (∃ tag, (self.PreUpdate ProcessObject.PreUpdateAddObserver p).p.m_Observers
      = p.m_Observers
        ++ (self.PreUpdate ProcessObject.PreUpdateAddObserver p).self.m_Commands.filterMap
          bridgingObserver
        ++ [⟨tag, .DeleteEvent, .OnActiveProcessDelete⟩]) := by
  obtain ⟨h1, h2, h3, h4, h5, h6, h7⟩ :=
    registerCommands_base self.m_Commands (p.SetNumberOfThreads self.GetNumberOfThreads) hs hr
  unfold ProcessObject.PreUpdate
  simp only [h1]
  refine ⟨trivial, trivial, ?_, ?_, ?_, h2, h4,
    ⟨(ProcessObject.registerCommands ProcessObject.PreUpdateAddObserver
      (p.SetNumberOfThreads self.GetNumberOfThreads) self.m_Commands).2.1.m_Count, ?_⟩⟩
  · simp only [ItkProcessObject.AddObserver]
    rw [h5]
    rfl
  · simp only [ItkProcessObject.AddObserver]
    rw [h6]
    rfl
  · simp only [ItkProcessObject.AddObserver]
    rw [h7]
    rfl
  · simp only [ItkProcessObject.AddObserver]
    rw [h3]
    rfl

/-- Witness of C19: the example wrapper with callback 1 for Any and callback 2 for End,
activated on the example operation, hands over its thread count 4 and leaves the
operation with the two bridging observers and the deletion observer. -/
theorem preUpdate_subscribes_witness :
    (exampleWrapperIdle.PreUpdate ProcessObject.PreUpdateAddObserver
      (exampleOperation 0)).thrown = none ∧
    (exampleWrapperIdle.PreUpdate ProcessObject.PreUpdateAddObserver
      (exampleOperation 0)).p.m_NumberOfThreads = 4 ∧
    (exampleWrapperIdle.PreUpdate ProcessObject.PreUpdateAddObserver
      (exampleOperation 0)).p.m_Observers
      = [⟨0, .AnyEvent, .SimpleAdaptorCommand 1⟩, ⟨1, .EndEvent, .SimpleAdaptorCommand 2⟩,
          ⟨2, .DeleteEvent, .OnActiveProcessDelete⟩] :=
  have hc : exampleWrapperIdle.m_Commands
      = [⟨.sitkAnyEvent, 1, unsignedLongMax⟩, ⟨.sitkEndEvent, 2, unsignedLongMax⟩] := rfl
  have hw := preUpdate_subscribes exampleWrapperIdle (exampleOperation 0)
    (by decide)
    (by
      intro i hi
      rw [hc] at hi
      simp only [List.mem_cons, List.mem_singleton, List.not_mem_nil, or_false] at hi
      rcases hi with rfl | rfl
      · exact ⟨.AnyEvent, rfl⟩
      · exact ⟨.EndEvent, rfl⟩)
  ⟨hw.1, hw.2.2.1, by decide⟩

/-- C20, as stated, fails: on the example wrapper, which is active and whose second
association holds tag 1 while its first one holds the sentinel and has an event kind
without native event, `PreUpdate` throws "LogicError: Unexpected event case!" and not
the exception of the commands that are registered already. -/
theorem preUpdate_registered_counterexample :
    exampleWrapperMixed.m_ActiveProcess.isSome = true ∧
    exampleWrapperMixed.m_Commands
      = [⟨.unregistered 3, 1, unsignedLongMax⟩, ⟨.sitkAnyEvent, 2, 1⟩] ∧
    1 ≠ unsignedLongMax ∧
    (exampleWrapperMixed.PreUpdate ProcessObject.PreUpdateAddObserver
      (exampleOperation 0)).thrown = some .unexpectedEventCase ∧
    (exampleWrapperMixed.PreUpdate ProcessObject.PreUpdateAddObserver
      (exampleOperation 0)).thrown ≠ some .commandsAlreadyRegistered := by
  decide

/-- C20, amended. For every wrapper (of the base class) in which an association `i`
holds a tag other than the sentinel while the associations before it hold the sentinel
and have registered event kinds (in particular when the first association holds a
tag), and every native operation `p`: `PreUpdate(p)` throws "Commands already
registered to another process object!", leaves the wrapper without an active
operation, leaves `i` and the associations after it as they are, and adds to `p` one
bridging observer for each association before `i` and no other observer. -/
theorem preUpdate_already_registered (self : ProcessObject) (p : ItkProcessObject)
    (pre post : List EventCommand) (i : EventCommand)
    (hc : self.m_Commands = pre ++ i :: post)
    (hs : ∀ j ∈ pre, j.m_ITKTag = unsignedLongMax)
    (hr : ∀ j ∈ pre, ∃ e, GetITKEventObject j.m_Event = .ok e)
    (hi : i.m_ITKTag ≠ unsignedLongMax) :
    (self.PreUpdate ProcessObject.PreUpdateAddObserver p).thrown
      = some .commandsAlreadyRegistered ∧
    (self.PreUpdate ProcessObject.PreUpdateAddObserver p).self.m_ActiveProcess = none ∧
    (∃ pre1, (self.PreUpdate ProcessObject.PreUpdateAddObserver p).self.m_Commands
        = pre1 ++ i :: post ∧
      pre1.map (fun j => (j.m_Event, j.m_Command)) = pre.map (fun j => (j.m_Event, j.m_Command)) ∧
      (pre1.filterMap bridgingObserver).length = pre.length ∧
      (self.PreUpdate ProcessObject.PreUpdateAddObserver p).p.m_Observers
        = p.m_Observers ++ pre1.filterMap bridgingObserver) := by
  obtain ⟨h1, h2, h3, h4, _, _, _⟩ :=
    registerCommands_base pre (p.SetNumberOfThreads self.GetNumberOfThreads) hs hr
  have happ := registerCommands_append ProcessObject.PreUpdateAddObserver pre (i :: post)
    (p.SetNumberOfThreads self.GetNumberOfThreads) h1
  rw [registerCommands_cons_tagged _ _ i post hi] at happ
  have hP : self.PreUpdate ProcessObject.PreUpdateAddObserver p
      = ⟨{ self with
            m_ActiveProcess := none
            m_Commands := (ProcessObject.registerCommands ProcessObject.PreUpdateAddObserver
              (p.SetNumberOfThreads self.GetNumberOfThreads) pre).1 ++ i :: post },
          (ProcessObject.registerCommands ProcessObject.PreUpdateAddObserver
            (p.SetNumberOfThreads self.GetNumberOfThreads) pre).2.1,
          some .commandsAlreadyRegistered⟩ := by
    simp only [ProcessObject.PreUpdate, hc, happ]
  rw [hP]
  exact ⟨rfl, rfl, _, rfl, h2, h4, h3⟩

/-- Witness of C20, amended: the example wrapper that is active with its one association
subscribed refuses a second activation, stays with the association as it is, and adds
no observer to the operation it is given. -/
theorem preUpdate_already_registered_witness :
    (exampleWrapperActive.PreUpdate ProcessObject.PreUpdateAddObserver
      (exampleOperation 0)).thrown = some .commandsAlreadyRegistered ∧
    (exampleWrapperActive.PreUpdate ProcessObject.PreUpdateAddObserver
      (exampleOperation 0)).p.m_Observers = [] :=
  have hw := preUpdate_already_registered exampleWrapperActive (exampleOperation 0)
    [] [] ⟨.sitkAnyEvent, 1, 0⟩ (by decide) (by decide)
    (fun j hj => absurd hj (List.not_mem_nil j)) (by decide)
  ⟨hw.1, by decide⟩

end SimpleITK
